import Mathlib

set_option autoImplicit false

/-!
# Verification of the pre/post audit reconciliation pipeline

Shallow embedding of the reconciliation core of `src/app.py`:
row extraction (`process_files`), the outer join (`pd.merge` on
`['Sector', 'Name']`), the authoritative status-column selection, the
`verify` classifier, the column reconstruction, the column selection and
the action-report filter.  Cells are modelled as `Option Val` where `none`
is a pandas missing value (NaN); rows are association lists from column
label to cell, in column order; frames carry an ordered column list and a
row list.  Fallible pandas operations (KeyError / IndexError / missing
sheet) are modelled in `Except String`.
-/

namespace PrePost

/-- A scalar cell value as it appears in a pandas object column: a Python
string or a Python integer. -/
inductive Val where
  | vStr (s : String)
  | vInt (n : Int)
  deriving DecidableEq, Repr

/-- A cell: `none` models a pandas missing value (NaN). -/
abbrev Cell := Option Val

/-- Python `str()` on a cell; `str(float('nan'))` is the string `"nan"`. -/
def pyStr : Cell → String
  | none => "nan"
  | some (.vStr s) => s
  | some (.vInt n) => toString n

/-- Model of `pd.isna` on a cell. -/
def isna : Cell → Bool
  | none => true
  | some _ => false

/-- Python `str.strip()`: remove leading and trailing whitespace. -/
def pyStrip (s : String) : String :=
  ⟨((s.data.dropWhile Char.isWhitespace).reverse.dropWhile Char.isWhitespace).reverse⟩

/-- A row: association list from column label to cell, in column order. -/
abbrev Row := List (String × Cell)

/-- First entry of the row with the given label, if any. -/
def Row.find (r : Row) (c : String) : Option Cell :=
  (List.find? (fun p => p.1 == c) r).map (fun p => p.2)

/-- Model of `row.get(c)` in pandas: an absent label behaves as a missing value. -/
def Row.get (r : Row) (c : String) : Cell :=
  (Row.find r c).getD none

/-- Model of `row[c]` in pandas: raises `KeyError` when the label is absent. -/
def Row.idx (r : Row) (c : String) : Except String Cell :=
  match Row.find r c with
  | some v => .ok v
  | none => .error ("KeyError: " ++ c)

/-- A data frame: ordered column labels and rows.  Pipeline frames keep the
invariant that each row is keyed exactly by `cols`, in order. -/
structure DF where
  cols : List String
  rows : List Row
  deriving DecidableEq, Repr

/-- Model of `df.empty`: the pipeline's frames have rows only when they have columns,
so emptiness is emptiness of the row list. -/
def DF.isEmpty (df : DF) : Bool := df.rows.isEmpty

/-- One sheet of a spreadsheet document: header labels and data rows. -/
structure Sheet where
  headers : List String
  data : List (List Cell)
  deriving DecidableEq, Repr

/-- An uploaded document: file name and named sheets.  `parseOk = false`
models a file that is not a valid tabular document at all, on which
`pd.read_excel` raises regardless of the requested sheet. -/
structure Doc where
  name : String
  parseOk : Bool
  sheets : List (String × Sheet)
  deriving DecidableEq, Repr

/-- Model of `pd.read_excel(f, sheet_name='Summary')`: fails when the file cannot be
parsed or has no sheet literally named "Summary". -/
def readSummary (d : Doc) : Except String Sheet :=
  if d.parseOk then
    match (List.find? (fun p => p.1 == "Summary") d.sheets).map (fun p => p.2) with
    | some sh => .ok sh
    | none => .error ("Worksheet named Summary not found in " ++ d.name)
  else .error ("not a valid tabular document: " ++ d.name)

/-- Site label from the file name, per
`re.search(r"^(?:Precheck|Postcheck)_([^_]+)_", f.name)`; `"Unknown"` when
the pattern does not match. -/
def parseSite (name : String) : String :=
  let cs := name.data
  let rest : Option (List Char) :=
    if List.isPrefixOf "Precheck_".data cs then some (cs.drop 9)
    else if List.isPrefixOf "Postcheck_".data cs then some (cs.drop 10)
    else none
  match rest with
  | none => "Unknown"
  | some r =>
    let label := r.takeWhile (fun ch => ch != '_')
    if label.isEmpty || (r.drop label.length).isEmpty then "Unknown"
    else ⟨label⟩

/-- Row Extractor: one iteration of the loop in `process_files`: read the
Summary sheet, strip the headers, insert `Site_File` at position 0, rename
the first two data columns to `Sector` and `Name`.  `df.columns[2]` raises
when the sheet has fewer than two columns.  Data rows are padded with
missing values up to the header width, as `read_excel` does. -/
def extract (d : Doc) : Except String DF := do
  let sh ← readSummary d
  match sh.headers.map pyStrip with
  | _ :: _ :: rest =>
    let site := parseSite d.name
    let cols := "Site_File" :: "Sector" :: "Name" :: rest
    let rows := sh.data.map (fun cells =>
      List.zip cols ((some (Val.vStr site) :: cells) ++ List.replicate cols.length none))
    .ok ⟨cols, rows⟩
  | _ => .error "IndexError: document has fewer than two columns"

/-- Union of column lists in order of first appearance, as `pd.concat`
builds the columns of the concatenated frame. -/
def unionCols (a b : List String) : List String :=
  a ++ b.filter (fun c => !(a.contains c))

/-- Re-key a row over the given columns; labels the row lacks become
missing values. -/
def reindex (cols : List String) (r : Row) : Row :=
  cols.map (fun c => (c, Row.get r c))

/-- Table Merger: `pd.concat(frames, ignore_index=True)`: columns are the
union in order of first appearance, rows keep their order, gaps are filled
with missing values. -/
def concatDF (fs : List DF) : DF :=
  let cols := fs.foldl (fun a f => unionCols a f.cols) []
  ⟨cols, (fs.map (fun f => f.rows.map (reindex cols))).flatten⟩

/-- The `frames` loop of `process_files`: extract every document in order,
propagating the first failure. -/
def extractAll : List Doc → Except String (List DF)
  | [] => .ok []
  | d :: ds => do
    let f ← extract d
    let fs ← extractAll ds
    .ok (f :: fs)

/-- Model of `process_files` (lines 65-76): an empty upload list yields the empty
frame `pd.DataFrame()` (no columns, no rows); otherwise every document is
extracted and the frames are concatenated. -/
def process_files (docs : List Doc) : Except String DF :=
  match docs with
  | [] => .ok ⟨[], []⟩
  | _ => do
    let frames ← extractAll docs
    .ok (concatDF frames)

/-! ## The outer join -/

/-- The join keys of `pd.merge(..., on=['Sector', 'Name'])`. -/
def mergeKeys : List String := ["Sector", "Name"]

/-- Non-key columns present in both frames: only these receive the
`_Pre` / `_Post` suffixes. -/
def commonCols (pre post : DF) : List String :=
  pre.cols.filter (fun c => post.cols.contains c && !(mergeKeys.contains c))

/-- Name of a left-frame column in the merged frame. -/
def lsuf (pre post : DF) (c : String) : String :=
  if (commonCols pre post).contains c then c ++ "_Pre" else c

/-- Name of a right-frame column in the merged frame. -/
def rsuf (pre post : DF) (c : String) : String :=
  if (commonCols pre post).contains c then c ++ "_Post" else c

/-- Columns of the merged frame: the left columns (suffixed where shared),
then the right non-key columns (suffixed where shared). -/
def mergedCols (pre post : DF) : List String :=
  pre.cols.map (lsuf pre post) ++
    (post.cols.filter (fun c => !(mergeKeys.contains c))).map (rsuf pre post)

/-- Join key of a row. -/
def rowKey (r : Row) : Cell × Cell :=
  (Row.get r "Sector", Row.get r "Name")

/-- Two rows match when their join keys agree (pandas also matches missing
keys with each other). -/
def keyMatch (l r : Row) : Bool :=
  decide (rowKey l = rowKey r)

/-- Left block of a merged row: the left row's cells under the merged left
column names. -/
def leftBlock (pre post : DF) (l : Row) : Row :=
  pre.cols.map (fun c => (lsuf pre post c, Row.get l c))

/-- Left block for a merged row whose left side is absent: only the join
keys are populated, from the right row. -/
def leftBlockOf (pre post : DF) (r : Row) : Row :=
  pre.cols.map (fun c =>
    (lsuf pre post c, if mergeKeys.contains c then Row.get r c else none))

/-- Right block of a merged row: the right row's non-key cells under the
merged right column names. -/
def rightBlock (pre post : DF) (r : Row) : Row :=
  (post.cols.filter (fun c => !(mergeKeys.contains c))).map
    (fun c => (rsuf pre post c, Row.get r c))

/-- Right block for a merged row whose right side is absent: all cells
missing. -/
def rightNulls (pre post : DF) : Row :=
  (post.cols.filter (fun c => !(mergeKeys.contains c))).map
    (fun c => (rsuf pre post c, (none : Cell)))

/-- Merged row for a matched pair. -/
def combine (pre post : DF) (l r : Row) : Row :=
  leftBlock pre post l ++ rightBlock pre post r

/-- Merged row for a left row without a match: right non-key columns are
missing. -/
def combineL (pre post : DF) (l : Row) : Row :=
  leftBlock pre post l ++ rightNulls pre post

/-- Merged row for a right row without a match: left columns are missing
except the join keys, which are taken from the right row. -/
def combineR (pre post : DF) (r : Row) : Row :=
  leftBlockOf pre post r ++ rightBlock pre post r

/-- Merged rows contributed by one left row: one per matching right row,
or a single half-missing row when nothing matches. -/
def leftBundle (pre post : DF) (l : Row) : List Row :=
  if (post.rows.filter (keyMatch l)).isEmpty then [combineL pre post l]
  else (post.rows.filter (keyMatch l)).map (combine pre post l)

/-- Right rows with no matching left row. -/
def unmatchedR (pre post : DF) : List Row :=
  post.rows.filter (fun r => pre.rows.all (fun l => !(keyMatch l r)))

/-- Rows of the full outer join: every left row paired with each matching
right row (or alone, with missing right values, when unmatched), then every
unmatched right row. -/
def mergeRows (pre post : DF) : List Row :=
  (pre.rows.map (leftBundle pre post)).flatten ++
    (unmatchedR pre post).map (combineR pre post)

/-- Model of `pd.merge(df_pre, df_post, on=['Sector','Name'], how='outer',
suffixes=('_Pre','_Post'))` (line 82): raises `KeyError` when a join key
column is missing from either frame (in particular when a side had zero
uploaded documents, so its frame has no columns at all). -/
def merge (pre post : DF) : Except String DF :=
  if pre.cols.contains "Sector" && pre.cols.contains "Name"
      && post.cols.contains "Sector" && post.cols.contains "Name" then
    .ok ⟨mergedCols pre post, mergeRows pre post⟩
  else .error "KeyError: Sector"

/-! ## Status classification -/

/-- Column labels excluded from the status columns. -/
def reserved : List String := ["Site_File", "Sector", "Name"]

/-- Model of `status_cols` (lines 84-88): the authoritative status-column list comes
from `df_pre` when it is non-empty, else from `df_post`, else it is empty. -/
def status_cols (pre post : DF) : List String :=
  if !pre.isEmpty then pre.cols.filter (fun c => !(reserved.contains c))
  else if !post.isEmpty then post.cols.filter (fun c => !(reserved.contains c))
  else []

/-- The `diffs` list comprehension of `verify` (line 93): status columns
whose trimmed stringified `_Pre` and `_Post` values differ, in original
column order.  `row[...]` raises on a missing label. -/
def diffs (row : Row) : List String → Except String (List String)
  | [] => .ok []
  | c :: cs => do
    let p ← Row.idx row (c ++ "_Pre")
    let q ← Row.idx row (c ++ "_Post")
    let rest ← diffs row cs
    if pyStrip (pyStr p) = pyStrip (pyStr q) then .ok rest else .ok (c :: rest)

/-- The `verify` classifier (lines 90-94).  Python's `and` short-circuits,
so `status_cols[0]` (an `IndexError` on an empty list) is only evaluated
when the corresponding frame is non-empty. -/
def verify (preEmpty postEmpty : Bool) (cols : List String) (row : Row) :
    Except String String := do
  let missPost ←
    if postEmpty then pure false
    else match cols with
      | [] => Except.error "IndexError: list index out of range"
      | c0 :: _ => pure (isna (Row.get row (c0 ++ "_Post")))
  if missPost then return "MISSING POST"
  let missPre ←
    if preEmpty then pure false
    else match cols with
      | [] => Except.error "IndexError: list index out of range"
      | c0 :: _ => pure (isna (Row.get row (c0 ++ "_Pre")))
  if missPre then return "MISSING PRE"
  let ds ← diffs row cols
  if ds.isEmpty then return "OK"
  return "MISMATCH: " ++ String.intercalate ", " ds

/-- Model of line 96, the Audit_Status assignment via `final_df.apply(verify, axis=1)`:
classify every merged row and append the result as a new last column. -/
def applyVerify (preEmpty postEmpty : Bool) (cols : List String) :
    List Row → Except String (List Row)
  | [] => .ok []
  | r :: rs => do
    let s ← verify preEmpty postEmpty cols r
    let rest ← applyVerify preEmpty postEmpty cols rs
    .ok ((r ++ [("Audit_Status", (some (Val.vStr s) : Cell))]) :: rest)

/-! ## Report assembly -/

/-- Rename one column label in a row. -/
def renameEntry (old new : String) (r : Row) : Row :=
  r.map (fun p => (if p.1 == old then new else p.1, p.2))

/-- Model of a pandas column rename, applied to label and rows. -/
def renameCol (old new : String) (df : DF) : DF :=
  ⟨df.cols.map (fun c => if c == old then new else c),
    df.rows.map (renameEntry old new)⟩

/-- Column assignment on a row: replace the entry when the label exists,
otherwise append it. -/
def setEntry (k : String) (v : Cell) (r : Row) : Row :=
  if r.any (fun p => p.1 == k) then
    r.map (fun p => if p.1 == k then (p.1, v) else p)
  else r ++ [(k, v)]

/-- Model of `df[newName] = df[src].where(df[gate].notna())` (lines 100-103): the
new column holds the `src` value where `gate` is present and a missing
value elsewhere; raises `KeyError` when `src` or `gate` is absent. -/
def whereCol (src gate newName : String) (df : DF) : Except String DF :=
  if df.cols.contains src && df.cols.contains gate then
    .ok ⟨(if df.cols.contains newName then df.cols else df.cols ++ [newName]),
      df.rows.map (fun r =>
        setEntry newName (if isna (Row.get r gate) then none else Row.get r src) r)⟩
  else .error ("KeyError: " ++ src ++ " or " ++ gate)

/-- Column reconstruction (lines 99-103): rename the unified join keys to
`Sector_U` / `Name_U` and re-derive per-side key columns gated on the
side's `Site_File` provenance being present. -/
def reconstruct (df0 : DF) : Except String DF := do
  let df ← whereCol "Sector_U" "Site_File_Pre" "Sector_Pre"
    (renameCol "Name" "Name_U" (renameCol "Sector" "Sector_U" df0))
  let df ← whereCol "Name_U" "Site_File_Pre" "Name_Pre" df
  let df ← whereCol "Sector_U" "Site_File_Post" "Sector_Post" df
  let df ← whereCol "Name_U" "Site_File_Post" "Name_Post" df
  .ok df

/-- The `pre_cols` selection list (line 105). -/
def preColsSel (scols : List String) : List String :=
  ["Site_File_Pre", "Sector_Pre", "Name_Pre"] ++ scols.map (fun c => c ++ "_Pre")

/-- The `post_cols` selection list (line 106). -/
def postColsSel (scols : List String) : List String :=
  ["Site_File_Post", "Sector_Post", "Name_Post"] ++ scols.map (fun c => c ++ "_Post")

/-- Model of the column selection `df[sel]` (line 107): keep exactly the requested columns in the
requested order; raises `KeyError` when one is absent. -/
def select (sel : List String) (df : DF) : Except String DF :=
  if sel.all (fun c => df.cols.contains c) then
    .ok ⟨sel, df.rows.map (reindex sel)⟩
  else .error "KeyError: selection"

/-- Model of `df_action = final_df[final_df['Audit_Status'] != "OK"]` (line 123). -/
def actionFilter (df : DF) : DF :=
  ⟨df.cols, df.rows.filter (fun r =>
    !(Row.get r "Audit_Status" == (some (Val.vStr "OK") : Cell)))⟩

/-- The two assembled output tables. -/
structure Report where
  full : DF
  action : DF
  deriving DecidableEq, Repr

/-- The reconciliation pipeline (lines 62-123, presentation glue removed):
extraction and concatenation per role, outer join, status classification,
column reconstruction, selection, action filter. -/
def runAudit (preDocs postDocs : List Doc) : Except String Report := do
  let dfPre ← process_files preDocs
  let dfPost ← process_files postDocs
  let merged ← merge dfPre dfPost
  let scols := status_cols dfPre dfPost
  let rows1 ← applyVerify dfPre.isEmpty dfPost.isEmpty scols merged.rows
  let df1 : DF := ⟨merged.cols ++ ["Audit_Status"], rows1⟩
  let df2 ← reconstruct df1
  let full ← select (preColsSel scols ++ postColsSel scols ++ ["Audit_Status"]) df2
  .ok ⟨full, actionFilter full⟩

/-! ## Derived notions used in the statements -/

/-- Whether the pipeline aborted with a propagated failure. -/
def isError {α : Type} (e : Except String α) : Bool :=
  match e with
  | .error _ => true
  | .ok _ => false

/-- Number of rows carrying a given join key. -/
def countKey (rows : List Row) (k : Cell × Cell) : Nat :=
  (rows.filter (fun r => decide (rowKey r = k))).length

/-- All rows of a table have pairwise distinct join keys. -/
def uniqueKeys (rows : List Row) : Prop :=
  List.Pairwise (fun a b => rowKey a ≠ rowKey b) rows

/-- Trimmed-string inequality of the `_Pre` / `_Post` cells of a status
column, the comparison `verify` performs. -/
def diffPred (row : Row) (c : String) : Bool :=
  !(pyStrip (pyStr (Row.get row (c ++ "_Pre"))) ==
    pyStrip (pyStr (Row.get row (c ++ "_Post"))))

/-- Audit status cell of an assembled report row. -/
def statusOf (r : Row) : Cell := Row.get r "Audit_Status"

/-- Rows the action report keeps: audit status differing from `"OK"`. -/
def needsAction (r : Row) : Bool :=
  !(statusOf r == (some (Val.vStr "OK") : Cell))

/-! ## Concrete documents and tables used by witnesses -/

/-- Summary sheet of the mismatch example: one row, `RSSI = "-80"`. -/
def sheetPreM : Sheet :=
  ⟨["Sec", "Nm", "RSSI"],
    [[some (.vStr "S1"), some (.vStr "N1"), some (.vStr "-80")]]⟩

/-- Summary sheet of the mismatch example: one row, `RSSI = "-82"`. -/
def sheetPostM : Sheet :=
  ⟨["Sec", "Nm", "RSSI"],
    [[some (.vStr "S1"), some (.vStr "N1"), some (.vStr "-82")]]⟩

/-- Precheck document of the mismatch example. -/
def preDocM : Doc := ⟨"Precheck_S1_cfg.xlsx", true, [("Summary", sheetPreM)]⟩

/-- Postcheck document of the mismatch example. -/
def postDocM : Doc := ⟨"Postcheck_S1_cfg.xlsx", true, [("Summary", sheetPostM)]⟩

/-- Whitespace/typing example: the Pre cell is the string `" -80 "`. -/
def sheetPreW : Sheet :=
  ⟨["Sec", "Nm", "RSSI"],
    [[some (.vStr "S1"), some (.vStr "N1"), some (.vStr " -80 ")]]⟩

/-- Whitespace/typing example: the Post cell is the integer `-80`. -/
def sheetPostW : Sheet :=
  ⟨["Sec", "Nm", "RSSI"],
    [[some (.vStr "S1"), some (.vStr "N1"), some (.vInt (-80))]]⟩

/-- Precheck document of the whitespace example. -/
def preDocW : Doc := ⟨"Precheck_S1_cfg.xlsx", true, [("Summary", sheetPreW)]⟩

/-- Postcheck document of the whitespace example. -/
def postDocW : Doc := ⟨"Postcheck_S1_cfg.xlsx", true, [("Summary", sheetPostW)]⟩

/-- A Summary sheet with headers but zero data rows. -/
def sheetEmpty : Sheet := ⟨["Sec", "Nm", "RSSI"], []⟩

/-- Precheck document whose Summary sheet has no data rows. -/
def preDocE : Doc := ⟨"Precheck_S2_cfg.xlsx", true, [("Summary", sheetEmpty)]⟩

/-- Postcheck document whose Summary sheet has no data rows. -/
def postDocE : Doc := ⟨"Postcheck_S2_cfg.xlsx", true, [("Summary", sheetEmpty)]⟩

/-- A document lacking a sheet named "Summary". -/
def badDoc : Doc := ⟨"Precheck_S3_cfg.xlsx", true, [("Sheet1", sheetPreM)]⟩

/-- Unified Pre table whose only status column is `A` (schema drift
between the roles). -/
def dfDriftPre : DF :=
  ⟨["Site_File", "Sector", "Name", "A"],
    [[("Site_File", some (.vStr "D")), ("Sector", some (.vStr "S1")),
      ("Name", some (.vStr "N1")), ("A", some (.vInt 1))]]⟩

/-- Unified Post table whose only status column is `B`. -/
def dfDriftPost : DF :=
  ⟨["Site_File", "Sector", "Name", "B"],
    [[("Site_File", some (.vStr "D")), ("Sector", some (.vStr "S1")),
      ("Name", some (.vStr "N1")), ("B", some (.vInt 2))]]⟩

/-- The outer join of the drifted tables. -/
def dfDriftM : DF :=
  ⟨mergedCols dfDriftPre dfDriftPost, mergeRows dfDriftPre dfDriftPost⟩

/-- Unified Pre table with a duplicated join key (two rows, same key). -/
def dfDupPre : DF :=
  ⟨["Site_File", "Sector", "Name", "A"],
    [[("Site_File", some (.vStr "P")), ("Sector", some (.vStr "S1")),
      ("Name", some (.vStr "N1")), ("A", some (.vInt 1))],
     [("Site_File", some (.vStr "P")), ("Sector", some (.vStr "S1")),
      ("Name", some (.vStr "N1")), ("A", some (.vInt 2))]]⟩

/-- Unified Post table with the same join key duplicated. -/
def dfDupPost : DF :=
  ⟨["Site_File", "Sector", "Name", "A"],
    [[("Site_File", some (.vStr "Q")), ("Sector", some (.vStr "S1")),
      ("Name", some (.vStr "N1")), ("A", some (.vInt 3))],
     [("Site_File", some (.vStr "Q")), ("Sector", some (.vStr "S1")),
      ("Name", some (.vStr "N1")), ("A", some (.vInt 4))]]⟩

/-- The outer join of the duplicated-key tables. -/
def dfDupM : DF := ⟨mergedCols dfDupPre dfDupPost, mergeRows dfDupPre dfDupPost⟩

/-- The shared duplicated key. -/
def dupKey : Cell × Cell := (some (.vStr "S1"), some (.vStr "N1"))

/-- A merged row whose first status column is missing on the Post side. -/
def wRow1 : Row := [("RSSI_Pre", some (.vStr "-80")), ("RSSI_Post", none)]

/-- A merged row with a genuine RSSI mismatch. -/
def wRowM : Row := [("RSSI_Pre", some (.vStr "-80")), ("RSSI_Post", some (.vStr "-82"))]

/-- A merged row whose column `B` is missing on the Pre side while the Post
side holds the literal string `"nan"`. -/
def wRowNan : Row :=
  [("A_Pre", some (.vInt 1)), ("A_Post", some (.vInt 1)),
   ("B_Pre", none), ("B_Post", some (.vStr "nan"))]

/-- A merged row whose column `B` is missing on the Pre side only. -/
def wRowHalf : Row :=
  [("A_Pre", some (.vInt 1)), ("A_Post", some (.vInt 1)),
   ("B_Pre", none), ("B_Post", some (.vStr "7"))]

/-- The report of the mismatch-example run. -/
def repM : Report :=
  (runAudit [preDocM] [postDocM]).toOption.getD ⟨⟨[], []⟩, ⟨[], []⟩⟩

/-- Unified Pre table of the mismatch-example run. -/
def dfPreM : DF := (process_files [preDocM]).toOption.getD ⟨[], []⟩

/-- Unified Post table of the mismatch-example run. -/
def dfPostM : DF := (process_files [postDocM]).toOption.getD ⟨[], []⟩

/-- Outer join of the mismatch-example run. -/
def dfMM : DF := (merge dfPreM dfPostM).toOption.getD ⟨[], []⟩

/-- Unified Pre table extracted from the empty-sheet Precheck document. -/
def dfPreE : DF := (process_files [preDocE]).toOption.getD ⟨[], []⟩

/-- Unified Post table extracted from the empty-sheet Postcheck document. -/
def dfPostE : DF := (process_files [postDocE]).toOption.getD ⟨[], []⟩

/-- The join-key renaming of line 99 on one row. -/
def renameU (r : Row) : Row :=
  renameEntry "Name" "Name_U" (renameEntry "Sector" "Sector_U" r)

/-- The per-row transformation performed by the column reconstruction
(lines 99-103): rename the join keys to `Sector_U` / `Name_U`, then derive
the four per-side key columns gated on the side's `Site_File` presence. -/
def reconRow (r : Row) : Row :=
  let r0 := renameU r
  let r1 := setEntry "Sector_Pre"
    (if isna (Row.get r0 "Site_File_Pre") then none else Row.get r0 "Sector_U") r0
  let r2 := setEntry "Name_Pre"
    (if isna (Row.get r1 "Site_File_Pre") then none else Row.get r1 "Name_U") r1
  let r3 := setEntry "Sector_Post"
    (if isna (Row.get r2 "Site_File_Post") then none else Row.get r2 "Sector_U") r2
  setEntry "Name_Post"
    (if isna (Row.get r3 "Site_File_Post") then none else Row.get r3 "Name_U") r3

/-- The single assembled report row of the mismatch-example run. -/
def mRep : Row := repM.full.rows.headD []

/-! # Lemmas about cell access -/

theorem Row.idx_of_isSome {r : Row} {c : String} (h : (Row.find r c).isSome) :
    Row.idx r c = .ok (Row.get r c) := by
  cases hf : Row.find r c with
  | some v => simp [Row.idx, Row.get, hf]
  | none => rw [hf] at h; simp at h

theorem Row.get_of_idx {r : Row} {c : String} {v : Cell}
    (h : Row.idx r c = .ok v) : Row.get r c = v := by
  unfold Row.idx at h
  cases hf : Row.find r c with
  | some w => rw [hf] at h; simp at h; simp [Row.get, hf, h]
  | none => rw [hf] at h; simp at h

/-! # Lemmas about the diffs comparison -/

theorem diffs_eq_of_present {row : Row} {cs : List String}
    (h : ∀ c ∈ cs,
      (Row.find row (c ++ "_Pre")).isSome ∧ (Row.find row (c ++ "_Post")).isSome) :
    diffs row cs = .ok (cs.filter (diffPred row)) := by
  induction cs with
  | nil => rfl
  | cons c cs ih =>
    obtain ⟨h1, h2⟩ := h c (List.mem_cons_self c cs)
    have ih' := ih (fun d hd => h d (List.mem_cons_of_mem c hd))
    simp only [diffs, Row.idx_of_isSome h1, Row.idx_of_isSome h2, ih']
    by_cases he : pyStrip (pyStr (Row.get row (c ++ "_Pre"))) =
        pyStrip (pyStr (Row.get row (c ++ "_Post")))
    · simp [he, List.filter_cons, diffPred, Bind.bind, Except.bind]
    · simp [he, List.filter_cons, diffPred, Bind.bind, Except.bind]

theorem diffs_ok_eq_filter {row : Row} {cs ds : List String}
    (h : diffs row cs = .ok ds) : ds = cs.filter (diffPred row) := by
  induction cs generalizing ds with
  | nil => simp [diffs] at h; simp [h]
  | cons c cs ih =>
    simp only [diffs] at h
    cases hp : Row.idx row (c ++ "_Pre") with
    | error e => rw [hp] at h; simp [Bind.bind, Except.bind] at h
    | ok p =>
      rw [hp] at h
      cases hq : Row.idx row (c ++ "_Post") with
      | error e => rw [hq] at h; simp [Bind.bind, Except.bind] at h
      | ok q =>
        rw [hq] at h
        cases hr : diffs row cs with
        | error e => rw [hr] at h; simp [Bind.bind, Except.bind] at h
        | ok rest =>
          rw [hr] at h
          have hrest := ih hr
          have hp' := Row.get_of_idx hp
          have hq' := Row.get_of_idx hq
          by_cases he : pyStrip (pyStr p) = pyStrip (pyStr q)
          · simp [Bind.bind, Except.bind, he] at h
            simp [← h, hrest, List.filter_cons, diffPred, hp', hq', he]
          · simp [Bind.bind, Except.bind, he] at h
            simp [← h, hrest, List.filter_cons, diffPred, hp', hq', he]

/-- C1: for every joined record whose cells the classifier can reach,
`Audit_Status` follows the precedence order first-match-wins: `MISSING
POST` when the Post table is non-empty and the first status column's
`_Post` cell is missing; else `MISSING PRE` when the Pre table is
non-empty and the first status column's `_Pre` cell is missing; else `OK`
when no status column differs as trimmed strings, and otherwise
`MISMATCH: ` followed by the differing status columns joined by `", "` in
original column order. -/
theorem C1_status_precedence (preEmpty postEmpty : Bool) (c0 : String)
    (cs : List String) (row : Row)
    (hall : ∀ c ∈ c0 :: cs,
      (Row.find row (c ++ "_Pre")).isSome ∧ (Row.find row (c ++ "_Post")).isSome) :
    verify preEmpty postEmpty (c0 :: cs) row = .ok (
      if postEmpty = false ∧ isna (Row.get row (c0 ++ "_Post")) = true then
        "MISSING POST"
      else if preEmpty = false ∧ isna (Row.get row (c0 ++ "_Pre")) = true then
        "MISSING PRE"
      else if ((c0 :: cs).filter (diffPred row)).isEmpty then "OK"
      else "MISMATCH: " ++
        String.intercalate ", " ((c0 :: cs).filter (diffPred row))) := by
  have hd := diffs_eq_of_present hall
  cases postEmpty <;> cases preEmpty <;>
    cases h1 : isna (Row.get row (c0 ++ "_Post")) <;>
    cases h2 : isna (Row.get row (c0 ++ "_Pre")) <;>
    simp [verify, h1, h2, hd, Bind.bind, Except.bind, pure, Except.pure] <;>
    split <;> rfl

/-- Witness for C1: on a concrete merged row whose first status column is
present on the Pre side and missing on the Post side, with both tables
non-empty, the classifier yields `MISSING POST`. -/
theorem C1_status_precedence_witness :
    verify false false ["RSSI"] wRow1 = .ok "MISSING POST" :=
  (C1_status_precedence false false "RSSI" [] wRow1 (by decide)).trans (by rfl)

/-- C3: status columns are compared as trimmed strings, not typed values:
a column enters the diffs list exactly when the whitespace-stripped string
conversions of its `_Pre` and `_Post` cells differ.  Concretely, Pre
`" -80 "` (a string) against Post `-80` (an integer) yields status `OK`,
while Pre RSSI `"-80"` against Post RSSI `"-82"` yields exactly
`MISMATCH: RSSI`. -/
theorem C3_trim_comparison :
    (∀ (row : Row) (cols ds : List String), diffs row cols = .ok ds →
      ∀ c ∈ cols,
        (c ∈ ds ↔ pyStrip (pyStr (Row.get row (c ++ "_Pre"))) ≠
          pyStrip (pyStr (Row.get row (c ++ "_Post"))))) ∧
    (runAudit [preDocW] [postDocW]).map (fun r => r.full.rows.map statusOf) =
      .ok [some (Val.vStr "OK")] ∧
    (runAudit [preDocM] [postDocM]).map (fun r => r.full.rows.map statusOf) =
      .ok [some (Val.vStr "MISMATCH: RSSI")] := by
  refine ⟨?_, by rfl, by rfl⟩
  intro row cols ds h c hc
  rw [diffs_ok_eq_filter h]
  simp [List.mem_filter, hc, diffPred]

/-- Witness for C3: on a concrete merged row the RSSI column is listed in
the computed diffs, and by the theorem this is equivalent to its trimmed
stringified cells differing. -/
theorem C3_trim_comparison_witness :
    diffs wRowM ["RSSI"] = .ok ["RSSI"] ∧
    ("RSSI" ∈ (["RSSI"] : List String) ↔
      pyStrip (pyStr (Row.get wRowM ("RSSI" ++ "_Pre"))) ≠
        pyStrip (pyStr (Row.get wRowM ("RSSI" ++ "_Post")))) :=
  ⟨rfl, C3_trim_comparison.1 wRowM ["RSSI"] ["RSSI"] rfl "RSSI" (by decide)⟩

/-- C10 counterexample: a joined record whose first status column is
present on both sides, with column `B` missing on the Pre side while the
Post side holds the literal string `"nan"`.  The claim as stated demands
`B` in the MISMATCH list, but `str()` maps the missing Pre cell to the
string `"nan"`, the two sides compare equal, and the code reports `OK`. -/
theorem C10_counterexample :
    isna (Row.get wRowNan "A_Pre") = false ∧
    isna (Row.get wRowNan "A_Post") = false ∧
    Row.get wRowNan "B_Pre" = none ∧
    Row.get wRowNan "B_Post" ≠ none ∧
    verify false false ["A", "B"] wRowNan = .ok "OK" :=
  ⟨rfl, rfl, rfl, by decide, rfl⟩

/-- C10 amended: a missing cell stringifies to `"nan"`, so when the first
status column is present on both sides no MISSING status is produced and
the diffs comparison decides the record; a column missing on both sides
compares equal and is never listed, and a column missing on exactly one
side is listed in the MISMATCH diffs unless the other side's trimmed
string conversion is itself `"nan"`. -/
theorem C10_null_cells (row : Row) (c0 c : String) (cs ds : List String)
    (hc : c ∈ c0 :: cs)
    (h0post : isna (Row.get row (c0 ++ "_Post")) = false)
    (h0pre : isna (Row.get row (c0 ++ "_Pre")) = false)
    (hds : diffs row (c0 :: cs) = .ok ds) :
    pyStr none = "nan" ∧
    verify false false (c0 :: cs) row =
      .ok (if ds.isEmpty then "OK"
        else "MISMATCH: " ++ String.intercalate ", " ds) ∧
    (Row.get row (c ++ "_Pre") = none → Row.get row (c ++ "_Post") = none →
      c ∉ ds) ∧
    (Row.get row (c ++ "_Pre") = none →
      pyStrip (pyStr (Row.get row (c ++ "_Post"))) ≠ "nan" → c ∈ ds) ∧
    (Row.get row (c ++ "_Post") = none →
      pyStrip (pyStr (Row.get row (c ++ "_Pre"))) ≠ "nan" → c ∈ ds) := by
  refine ⟨rfl, ?_, ?_, ?_, ?_⟩
  · simp [verify, h0post, h0pre, hds, Bind.bind, Except.bind, pure, Except.pure]
    split <;> rfl
  · intro hp hq
    rw [diffs_ok_eq_filter hds]
    simp [List.mem_filter, diffPred, hp, hq]
  · intro hp hne
    rw [diffs_ok_eq_filter hds]
    simp only [List.mem_filter, diffPred, hp, pyStr]
    simp [hc]
    exact fun h => absurd h.symm hne
  · intro hq hne
    rw [diffs_ok_eq_filter hds]
    simp only [List.mem_filter, diffPred, hq, pyStr]
    simp [hc]
    exact hne

/-- Witness for C10: on a concrete row with `A` equal on both sides and
`B` missing on the Pre side only (Post holds `"7"`), the diffs list is
exactly `["B"]` and the record is classified `MISMATCH: B`. -/
theorem C10_null_cells_witness :
    pyStr none = "nan" ∧
    verify false false ["A", "B"] wRowHalf =
      .ok (if (["B"] : List String).isEmpty then "OK"
        else "MISMATCH: " ++ String.intercalate ", " ["B"]) ∧
    (Row.get wRowHalf "B_Pre" = none → Row.get wRowHalf "B_Post" = none →
      "B" ∉ (["B"] : List String)) ∧
    (Row.get wRowHalf "B_Pre" = none →
      pyStrip (pyStr (Row.get wRowHalf "B_Post")) ≠ "nan" →
      "B" ∈ (["B"] : List String)) ∧
    (Row.get wRowHalf "B_Post" = none →
      pyStrip (pyStr (Row.get wRowHalf "B_Pre")) ≠ "nan" →
      "B" ∈ (["B"] : List String)) :=
  C10_null_cells wRowHalf "A" "B" ["B"] ["B"] (by decide) rfl rfl rfl

/-! # Lemmas about the outer join -/

theorem append_Pre_ne_Sector (c : String) : c ++ "_Pre" ≠ "Sector" := by
  intro h
  have h2 := congrArg (fun s : String => s.data.getLast?) h
  simp only [String.data_append] at h2
  rw [List.getLast?_append] at h2
  simp at h2

theorem append_Pre_ne_Name (c : String) : c ++ "_Pre" ≠ "Name" := by
  intro h
  have hl := congrArg String.length h
  rw [String.length_append] at hl
  have hc : c.length = 0 := by
    have : ("_Pre" : String).length = 4 := rfl
    have : ("Name" : String).length = 4 := rfl
    omega
  have hdata : c.data = [] := List.eq_nil_of_length_eq_zero hc
  cases c with
  | mk data =>
    simp at hdata
    subst hdata
    exact absurd h (by decide)

theorem key_ne_append_Pre {k : String} (hk : k ∈ mergeKeys) (c : String) :
    c ++ "_Pre" ≠ k := by
  simp [mergeKeys] at hk
  rcases hk with h | h <;> subst h
  · exact append_Pre_ne_Sector c
  · exact append_Pre_ne_Name c

theorem mem_commonCols {pre post : DF} {c : String} :
    c ∈ commonCols pre post ↔
      c ∈ pre.cols ∧ c ∈ post.cols ∧ ¬(c ∈ mergeKeys) := by
  simp [commonCols, List.mem_filter, and_assoc]

theorem lsuf_key {pre post : DF} {k : String} (hk : k ∈ mergeKeys) :
    lsuf pre post k = k := by
  unfold lsuf
  have : ¬(k ∈ commonCols pre post) := fun hmem =>
    (mem_commonCols.mp hmem).2.2 hk
  simp [this]

theorem lsuf_eq_key {pre post : DF} {c k : String} (hk : k ∈ mergeKeys)
    (h : lsuf pre post c = k) : c = k := by
  unfold lsuf at h
  by_cases hc : (commonCols pre post).contains c
  · rw [if_pos hc] at h
    exact absurd h (key_ne_append_Pre hk c)
  · rwa [if_neg hc] at h

/-- Looking a label up in a block built by mapping a renaming over a
column list: when the label is in the list, is fixed by the renaming, and
nothing else renames onto it, the lookup returns that column's value. -/
theorem find_block {cols : List String} {sfx : String → String}
    {v : String → Cell} {k : String} {tail : Row}
    (hmem : k ∈ cols) (hsfx : sfx k = k)
    (hinj : ∀ c, sfx c = k → c = k) :
    Row.find (cols.map (fun c => (sfx c, v c)) ++ tail) k = some (v k) := by
  induction cols with
  | nil => cases hmem
  | cons c cs ih =>
    by_cases hck : sfx c = k
    · have hc : c = k := hinj c hck
      subst hc
      simp [Row.find, List.find?_cons, hck]
    · have hk' : k ∈ cs := by
        rcases List.mem_cons.mp hmem with h | h
        · exact absurd (h ▸ hsfx) hck
        · exact h
      have hbeq : ((sfx c, v c).1 == k) = false := by
        simp [hck]
      simp only [List.map_cons, List.cons_append, Row.find, List.find?]
      rw [hbeq]
      exact ih hk'

/-- Looking a label up in a block none of whose columns rename onto it
skips the block. -/
theorem find_block_none {cols : List String} {sfx : String → String}
    {v : String → Cell} {k : String} {tail : Row}
    (hnone : ∀ c ∈ cols, sfx c ≠ k) :
    Row.find (cols.map (fun c => (sfx c, v c)) ++ tail) k = Row.find tail k := by
  induction cols with
  | nil => rfl
  | cons c cs ih =>
    have hbeq : ((sfx c, v c).1 == k) = false := by
      simp [hnone c (List.mem_cons_self c cs)]
    simp only [List.map_cons, List.cons_append, Row.find, List.find?]
    rw [hbeq]
    exact ih (fun d hd => hnone d (List.mem_cons_of_mem c hd))

/-- A lookup in a row all of whose cells are missing yields a missing
value. -/
theorem Row.get_all_none {r : Row} (h : ∀ p ∈ r, p.2 = none) (k : String) :
    Row.get r k = none := by
  unfold Row.get Row.find
  cases hf : List.find? (fun p => p.1 == k) r with
  | none => rfl
  | some p => simp [h p (List.mem_of_find?_eq_some hf)]

theorem rowKey_combine {pre post : DF} {l r : Row}
    (hS : "Sector" ∈ pre.cols) (hN : "Name" ∈ pre.cols) :
    rowKey (combine pre post l r) = rowKey l := by
  unfold rowKey combine leftBlock Row.get
  rw [find_block hS (lsuf_key (by simp [mergeKeys]))
      (fun c h => lsuf_eq_key (by simp [mergeKeys]) h),
    find_block hN (lsuf_key (by simp [mergeKeys]))
      (fun c h => lsuf_eq_key (by simp [mergeKeys]) h)]
  rfl

theorem rowKey_combineL {pre post : DF} {l : Row}
    (hS : "Sector" ∈ pre.cols) (hN : "Name" ∈ pre.cols) :
    rowKey (combineL pre post l) = rowKey l := by
  unfold rowKey combineL leftBlock Row.get
  rw [find_block hS (lsuf_key (by simp [mergeKeys]))
      (fun c h => lsuf_eq_key (by simp [mergeKeys]) h),
    find_block hN (lsuf_key (by simp [mergeKeys]))
      (fun c h => lsuf_eq_key (by simp [mergeKeys]) h)]
  rfl

theorem rowKey_combineR {pre post : DF} {r : Row}
    (hS : "Sector" ∈ pre.cols) (hN : "Name" ∈ pre.cols) :
    rowKey (combineR pre post r) = rowKey r := by
  unfold rowKey combineR leftBlockOf Row.get
  rw [find_block hS (lsuf_key (by simp [mergeKeys]))
      (fun c h => lsuf_eq_key (by simp [mergeKeys]) h),
    find_block hN (lsuf_key (by simp [mergeKeys]))
      (fun c h => lsuf_eq_key (by simp [mergeKeys]) h)]
  simp [mergeKeys]

/-! # Counting lemmas for the outer join -/

theorem sum_map_add {β : Type} (R : List β) (f g : β → Nat) :
    (R.map (fun r => f r + g r)).sum = (R.map f).sum + (R.map g).sum := by
  induction R with
  | nil => rfl
  | cons r R ih => simp [ih]; omega

theorem sum_map_ite_one {β : Type} (R : List β) (q : β → Bool) :
    (R.map (fun r => if q r then 1 else 0)).sum = R.countP q := by
  induction R with
  | nil => rfl
  | cons r R ih => by_cases h : q r <;> simp [List.countP_cons, h, ih] <;> omega

theorem sum_map_ite_const {α : Type} (L : List α) (q : α → Bool) (n : Nat) :
    (L.map (fun x => if q x then n else 0)).sum = L.countP q * n := by
  induction L with
  | nil => simp
  | cons x L ih =>
    by_cases h : q x <;> simp [List.countP_cons, h, ih] <;> ring

theorem sum_count_swap {α β : Type} (L : List α) (R : List β)
    (p : α → β → Bool) :
    (L.map (fun l => R.countP (p l))).sum =
      (R.map (fun r => L.countP (fun l => p l r))).sum := by
  induction L with
  | nil =>
    simp only [List.map_nil, List.sum_nil, List.countP_nil]
    induction R with
    | nil => rfl
    | cons r R ihR => simpa using ihR
  | cons l L ih =>
    simp only [List.map_cons, List.sum_cons, ih]
    have : (R.map (fun r => (l :: L).countP (fun x => p x r))).sum =
        (R.map (fun r => (if p l r then 1 else 0) + L.countP (fun x => p x r))).sum := by
      congr 1
      apply List.map_congr_left
      intro r _
      rw [List.countP_cons]
      omega
    rw [this, sum_map_add, sum_map_ite_one]

theorem length_leftBundle {pre post : DF} (l : Row) :
    (leftBundle pre post l).length =
      if (post.rows.filter (keyMatch l)).isEmpty then 1
      else (post.rows.filter (keyMatch l)).length := by
  unfold leftBundle
  by_cases h : (post.rows.filter (keyMatch l)).isEmpty <;> simp [h]

theorem leftBundle_ne_nil {pre post : DF} (l : Row) :
    leftBundle pre post l ≠ [] := by
  unfold leftBundle
  by_cases h : (post.rows.filter (keyMatch l)).isEmpty
  · simp [h]
  · have h' : post.rows.filter (keyMatch l) ≠ [] := by
      simpa [List.isEmpty_iff] using h
    simp [h, h']

theorem mem_leftBundle {pre post : DF} {l m : Row}
    (h : m ∈ leftBundle pre post l) :
    m = combineL pre post l ∨
      ∃ r ∈ post.rows, keyMatch l r ∧ m = combine pre post l r := by
  unfold leftBundle at h
  by_cases he : (post.rows.filter (keyMatch l)).isEmpty
  · rw [if_pos he] at h
    left
    simpa using h
  · rw [if_neg he] at h
    right
    obtain ⟨r, hr, hm⟩ := List.mem_map.mp h
    have := List.mem_filter.mp hr
    exact ⟨r, this.1, this.2, hm.symm⟩

theorem rowKey_mem_leftBundle {pre post : DF} {l m : Row}
    (hS : "Sector" ∈ pre.cols) (hN : "Name" ∈ pre.cols)
    (h : m ∈ leftBundle pre post l) : rowKey m = rowKey l := by
  rcases mem_leftBundle h with h | ⟨r, _, _, h⟩
  · rw [h, rowKey_combineL hS hN]
  · rw [h, rowKey_combine hS hN]

theorem countKey_append (a b : List Row) (k : Cell × Cell) :
    countKey (a ++ b) k = countKey a k + countKey b k := by
  simp [countKey, List.filter_append]

theorem countKey_eq_countP (rows : List Row) (k : Cell × Cell) :
    countKey rows k = rows.countP (fun r => decide (rowKey r = k)) := by
  simp [countKey, List.countP_eq_length_filter]

theorem filter_key_leftBundle {pre post : DF} (l : Row) (k : Cell × Cell)
    (hS : "Sector" ∈ pre.cols) (hN : "Name" ∈ pre.cols) :
    (leftBundle pre post l).filter (fun m => decide (rowKey m = k)) =
      if rowKey l = k then leftBundle pre post l else [] := by
  by_cases hl : rowKey l = k
  · rw [if_pos hl]
    apply List.filter_eq_self.mpr
    intro m hm
    simp [rowKey_mem_leftBundle hS hN hm, hl]
  · rw [if_neg hl]
    apply List.filter_eq_nil.mpr
    intro m hm
    simp [rowKey_mem_leftBundle hS hN hm, hl]

theorem length_filter_key_matches {pre post : DF} {l : Row} {k : Cell × Cell}
    (hl : rowKey l = k) :
    (post.rows.filter (keyMatch l)).length = countKey post.rows k := by
  unfold countKey
  congr 1
  apply List.filter_congr
  intro r _
  simp [keyMatch, hl, eq_comm]

theorem countKey_mergeRows (pre post : DF) (k : Cell × Cell)
    (hS : "Sector" ∈ pre.cols) (hN : "Name" ∈ pre.cols) :
    countKey (mergeRows pre post) k =
      if countKey pre.rows k = 0 then countKey post.rows k
      else if countKey post.rows k = 0 then countKey pre.rows k
      else countKey pre.rows k * countKey post.rows k := by
  rw [mergeRows, countKey_append]
  have hA : countKey ((pre.rows.map (leftBundle pre post)).flatten) k =
      countKey pre.rows k *
        (if countKey post.rows k = 0 then 1 else countKey post.rows k) := by
    unfold countKey
    rw [List.filter_flatten, List.map_map, List.length_flatten, List.map_map]
    have hpt : ∀ l ∈ pre.rows,
        (List.length ∘ (List.filter (fun m => decide (rowKey m = k)) ∘ leftBundle pre post)) l =
          (fun x => if decide (rowKey x = k) then
            (if countKey post.rows k = 0 then 1 else countKey post.rows k) else 0) l := by
      intro l _
      simp only [Function.comp_apply]
      rw [filter_key_leftBundle l k hS hN]
      by_cases hl : rowKey l = k
      · have hcnt := @length_filter_key_matches pre post l k hl
        rw [if_pos hl, if_pos (by simp [hl] : decide (rowKey l = k) = true)]
        rcases Nat.eq_zero_or_pos (countKey post.rows k) with h0 | h0
        · have hemp : (post.rows.filter (keyMatch l)).isEmpty = true := by
            rw [List.isEmpty_iff, ← List.length_eq_zero, hcnt]
            exact h0
          rw [length_leftBundle, if_pos hemp, if_pos h0]
        · have hemp : ¬((post.rows.filter (keyMatch l)).isEmpty = true) := by
            rw [List.isEmpty_iff, ← List.length_eq_zero, hcnt]
            omega
          rw [length_leftBundle, if_neg hemp, if_neg (by omega), hcnt]
      · rw [if_neg hl, if_neg (by simp [hl])]
        rfl
    rw [List.map_congr_left hpt, sum_map_ite_const, ← countKey_eq_countP]
    simp [countKey]
  have hB : countKey ((unmatchedR pre post).map (combineR pre post)) k =
      if countKey pre.rows k = 0 then countKey post.rows k else 0 := by
    have h1 : countKey ((unmatchedR pre post).map (combineR pre post)) k =
        ((unmatchedR pre post).filter (fun r => decide (rowKey r = k))).length := by
      unfold countKey
      rw [List.map_filter, List.length_map]
      congr 1
      apply List.filter_congr
      intro r _
      simp [Function.comp, rowKey_combineR hS hN]
    rw [h1]
    unfold unmatchedR
    rw [List.filter_filter]
    rcases Nat.eq_zero_or_pos (countKey pre.rows k) with h0 | h0
    · rw [if_pos h0]
      have hnol : ∀ l ∈ pre.rows, ¬(rowKey l = k) := by
        intro l hl hk
        rw [countKey_eq_countP] at h0
        have : 0 < pre.rows.countP (fun r => decide (rowKey r = k)) :=
          List.countP_pos.mpr ⟨l, hl, by simp [hk]⟩
        omega
      have heq : post.rows.filter
          (fun r => decide (rowKey r = k) && pre.rows.all (fun l => !(keyMatch l r))) =
          post.rows.filter (fun r => decide (rowKey r = k)) := by
        apply List.filter_congr
        intro r _
        by_cases hk : rowKey r = k
        · have hall : pre.rows.all (fun l => !(keyMatch l r)) = true := by
            rw [List.all_eq_true]
            intro l hl
            simp [keyMatch, hk, hnol l hl]
          simp [hk, hall]
        · simp [hk]
      rw [heq]
      simp [countKey]
    · rw [if_neg (by omega)]
      obtain ⟨l0, hl0, hk0⟩ := List.countP_pos.mp (by
        rw [← countKey_eq_countP]; exact h0)
      have heq : post.rows.filter
          (fun r => decide (rowKey r = k) && pre.rows.all (fun l => !(keyMatch l r))) = [] := by
        apply List.filter_eq_nil_iff.mpr
        intro r hr
        by_cases hk : rowKey r = k
        · have hmatch : keyMatch l0 r = true := by
            simp only [keyMatch, decide_eq_true_eq]
            rw [hk]
            exact of_decide_eq_true hk0
          intro hpred
          simp only [hk, Bool.and_eq_true, List.all_eq_true] at hpred
          have := hpred.2 l0 hl0
          rw [hmatch] at this
          exact absurd this (by decide)
        · simp [hk]
      rw [heq]
      rfl
  rw [hA, hB]
  by_cases h0 : countKey pre.rows k = 0 <;> by_cases h1 : countKey post.rows k = 0 <;>
    simp [h0, h1]

theorem sum_map_one {α : Type} (L : List α) :
    (L.map (fun _ => 1)).sum = L.length := by
  induction L with
  | nil => rfl
  | cons x L ih => simp [ih]; omega

theorem countP_add_countP_not {β : Type} (R : List β) (q : β → Bool) :
    R.countP q + R.countP (fun r => !(q r)) = R.length := by
  induction R with
  | nil => rfl
  | cons r R ih => by_cases h : q r <;> simp [List.countP_cons, h] <;> omega

theorem length_mergeRows_ge_left (pre post : DF) :
    pre.rows.length ≤ (mergeRows pre post).length := by
  rw [mergeRows, List.length_append, List.length_flatten, List.map_map]
  have h1 : (pre.rows.map (fun _ => 1)).sum ≤
      (pre.rows.map (List.length ∘ leftBundle pre post)).sum := by
    apply List.sum_le_sum
    intro l _
    exact List.length_pos.mpr (leftBundle_ne_nil l)
  rw [sum_map_one] at h1
  omega

theorem length_mergeRows_ge_right (pre post : DF) :
    post.rows.length ≤ (mergeRows pre post).length := by
  rw [mergeRows, List.length_append, List.length_flatten, List.map_map]
  have hB : ((unmatchedR pre post).map (combineR pre post)).length =
      post.rows.countP (fun r => pre.rows.all (fun l => !(keyMatch l r))) := by
    rw [List.length_map]
    unfold unmatchedR
    rw [List.countP_eq_length_filter]
  have hA1 : (pre.rows.map (fun l => post.rows.countP (keyMatch l))).sum ≤
      (pre.rows.map (List.length ∘ leftBundle pre post)).sum := by
    apply List.sum_le_sum
    intro l _
    simp only [Function.comp_apply, length_leftBundle, List.countP_eq_length_filter]
    by_cases h : (post.rows.filter (keyMatch l)).isEmpty
    · rw [if_pos h]
      rw [List.isEmpty_iff] at h
      simp [h]
    · rw [if_neg h]
  rw [sum_count_swap] at hA1
  have hA2 : (post.rows.map (fun r =>
      if pre.rows.all (fun l => !(keyMatch l r)) then 0 else 1)).sum ≤
      (post.rows.map (fun r => pre.rows.countP (fun l => keyMatch l r))).sum := by
    apply List.sum_le_sum
    intro r _
    by_cases h : pre.rows.all (fun l => !(keyMatch l r))
    · simp [h]
    · rw [if_neg h]
      rw [List.all_eq_true] at h
      push_neg at h
      obtain ⟨l, hl, hne⟩ := h
      have : keyMatch l r = true := by
        cases hk : keyMatch l r
        · rw [hk] at hne; simp at hne
        · rfl
      exact List.countP_pos.mpr ⟨l, hl, by simp [this]⟩
  have hflip : (post.rows.map (fun r =>
      if pre.rows.all (fun l => !(keyMatch l r)) then 0 else 1)).sum =
      post.rows.countP (fun r => !(pre.rows.all (fun l => !(keyMatch l r)))) := by
    rw [← sum_map_ite_one]
    congr 1
    apply List.map_congr_left
    intro r _
    by_cases h : pre.rows.all (fun l => !(keyMatch l r)) <;> simp [h]
  have hcount := countP_add_countP_not post.rows
    (fun r => pre.rows.all (fun l => !(keyMatch l r)))
  rw [hflip] at hA2
  omega

theorem length_leftBlock (pre post : DF) (l : Row) :
    (leftBlock pre post l).length = pre.cols.length := by
  simp [leftBlock]

theorem length_leftBlockOf (pre post : DF) (r : Row) :
    (leftBlockOf pre post r).length = pre.cols.length := by
  simp [leftBlockOf]

theorem take_combine (pre post : DF) (l r : Row) :
    (combine pre post l r).take pre.cols.length = leftBlock pre post l := by
  rw [combine, ← length_leftBlock pre post l, List.take_left]

theorem take_combineL (pre post : DF) (l : Row) :
    (combineL pre post l).take pre.cols.length = leftBlock pre post l := by
  rw [combineL, ← length_leftBlock pre post l, List.take_left]

theorem drop_combine (pre post : DF) (l r : Row) :
    (combine pre post l r).drop pre.cols.length = rightBlock pre post r := by
  rw [combine, ← length_leftBlock pre post l, List.drop_left]

theorem drop_combineR (pre post : DF) (r : Row) :
    (combineR pre post r).drop pre.cols.length = rightBlock pre post r := by
  rw [combineR, ← length_leftBlockOf pre post r, List.drop_left]

theorem mem_mergeRows_of_bundle {pre post : DF} {l m : Row}
    (hl : l ∈ pre.rows) (hm : m ∈ leftBundle pre post l) :
    m ∈ mergeRows pre post := by
  rw [mergeRows]
  exact List.mem_append_left _
    (List.mem_flatten.mpr ⟨leftBundle pre post l, List.mem_map_of_mem _ hl, hm⟩)

theorem merge_ok_parts {pre post dfM : DF} (hm : merge pre post = .ok dfM) :
    "Sector" ∈ pre.cols ∧ "Name" ∈ pre.cols ∧
    "Sector" ∈ post.cols ∧ "Name" ∈ post.cols ∧
    dfM.cols = mergedCols pre post ∧ dfM.rows = mergeRows pre post := by
  unfold merge at hm
  split at hm
  · next h =>
    simp only [Bool.and_eq_true, List.contains_eq_any_beq, List.any_eq_true,
      beq_iff_eq] at h
    obtain ⟨⟨⟨h1, h2⟩, h3⟩, h4⟩ := h
    obtain ⟨s1, hs1, he1⟩ := h1
    obtain ⟨s2, hs2, he2⟩ := h2
    obtain ⟨s3, hs3, he3⟩ := h3
    obtain ⟨s4, hs4, he4⟩ := h4
    cases hm
    exact ⟨he1 ▸ hs1, he2 ▸ hs2, he3 ▸ hs3, he4 ▸ hs4, rfl, rfl⟩
  · cases hm

/-- C4: the join is a full outer join on (Sector, Name): every Pre row and
every Post row appears in at least one joined record (its cells intact
under its side's merged column names, with the same join key); with unique
keys the joined-record count is at least `max |Pre| |Post|`; a key
duplicated on both sides yields exactly the cross-product of the matching
rows. -/
theorem C4_full_outer_join (pre post dfM : DF) (hm : merge pre post = .ok dfM) :
    (∀ l ∈ pre.rows, ∃ m ∈ dfM.rows,
      m.take pre.cols.length = leftBlock pre post l ∧ rowKey m = rowKey l) ∧
    (∀ r ∈ post.rows, ∃ m ∈ dfM.rows,
      m.drop pre.cols.length = rightBlock pre post r ∧ rowKey m = rowKey r) ∧
    (uniqueKeys pre.rows → uniqueKeys post.rows →
      max pre.rows.length post.rows.length ≤ dfM.rows.length) ∧
    (∀ k : Cell × Cell, 0 < countKey pre.rows k → 0 < countKey post.rows k →
      countKey dfM.rows k = countKey pre.rows k * countKey post.rows k) := by
  obtain ⟨hS, hN, hS', hN', hcols, hrows⟩ := merge_ok_parts hm
  rw [hrows]
  refine ⟨?_, ?_, ?_, ?_⟩
  · intro l hl
    obtain ⟨m, hmem⟩ := List.exists_mem_of_ne_nil _ (@leftBundle_ne_nil pre post l)
    refine ⟨m, mem_mergeRows_of_bundle hl hmem, ?_, rowKey_mem_leftBundle hS hN hmem⟩
    rcases mem_leftBundle hmem with h | ⟨r, _, _, h⟩
    · rw [h, take_combineL]
    · rw [h, take_combine]
  · intro r hr
    by_cases hmatch : ∃ l ∈ pre.rows, keyMatch l r = true
    · obtain ⟨l, hl, hkm⟩ := hmatch
      have hrf : r ∈ post.rows.filter (keyMatch l) := List.mem_filter.mpr ⟨hr, hkm⟩
      have hne : ¬((post.rows.filter (keyMatch l)).isEmpty = true) := by
        rw [List.isEmpty_iff]
        exact List.ne_nil_of_mem hrf
      have hmem : combine pre post l r ∈ leftBundle pre post l := by
        unfold leftBundle
        rw [if_neg hne]
        exact List.mem_map_of_mem _ hrf
      refine ⟨combine pre post l r, mem_mergeRows_of_bundle hl hmem,
        drop_combine pre post l r, ?_⟩
      rw [rowKey_combine hS hN]
      exact of_decide_eq_true hkm
    · push_neg at hmatch
      have hrm : r ∈ unmatchedR pre post := by
        unfold unmatchedR
        refine List.mem_filter.mpr ⟨hr, ?_⟩
        rw [List.all_eq_true]
        intro l hl
        have := hmatch l hl
        cases hk : keyMatch l r
        · rfl
        · exact absurd hk this
      refine ⟨combineR pre post r, ?_, drop_combineR pre post r,
        rowKey_combineR hS hN⟩
      rw [mergeRows]
      exact List.mem_append_right _ (List.mem_map_of_mem _ hrm)
  · intro _ _
    exact Nat.max_le.mpr ⟨length_mergeRows_ge_left pre post,
      length_mergeRows_ge_right pre post⟩
  · intro k h0 h1
    rw [countKey_mergeRows pre post k hS hN, if_neg (by omega), if_neg (by omega)]

/-- Witness for C4: two Pre rows and two Post rows sharing one duplicated
key produce exactly `2 * 2` joined records for that key. -/
theorem C4_full_outer_join_witness :
    merge dfDupPre dfDupPost = .ok dfDupM ∧
    countKey dfDupPre.rows dupKey = 2 ∧
    countKey dfDupPost.rows dupKey = 2 ∧
    countKey dfDupM.rows dupKey = 2 * 2 := by
  refine ⟨rfl, by decide, by decide, ?_⟩
  have h := (C4_full_outer_join dfDupPre dfDupPost dfDupM rfl).2.2.2 dupKey
    (by decide) (by decide)
  exact h.trans (by decide)

/-! # Lemmas for the per-record column schema -/

theorem string_append_right_cancel {a b s : String} (h : a ++ s = b ++ s) :
    a = b := by
  have h2 := congrArg String.data h
  simp only [String.data_append] at h2
  have h3 := List.append_cancel_right h2
  cases a
  cases b
  exact congrArg String.mk h3

theorem append_Pre_ne_append_Post (a b : String) :
    a ++ "_Pre" ≠ b ++ "_Post" := by
  intro h
  have h2 := congrArg (fun s : String => s.data.getLast?) h
  simp only [String.data_append] at h2
  rw [List.getLast?_append, List.getLast?_append] at h2
  simp at h2

theorem contains_of_mem {l : List String} {c : String} (h : c ∈ l) :
    l.contains c = true := by
  simp only [List.contains_eq_any_beq, List.any_eq_true]
  exact ⟨c, h, by simp⟩

theorem lsuf_of_common {pre post : DF} {c : String}
    (h : c ∈ commonCols pre post) : lsuf pre post c = c ++ "_Pre" := by
  unfold lsuf
  rw [if_pos (contains_of_mem h)]

theorem rsuf_of_common {pre post : DF} {c : String}
    (h : c ∈ commonCols pre post) : rsuf pre post c = c ++ "_Post" := by
  unfold rsuf
  rw [if_pos (contains_of_mem h)]

theorem status_cols_not_key {pre post : DF} {c : String}
    (hc : c ∈ status_cols pre post) : ¬(c ∈ mergeKeys) := by
  have hres : ¬(c ∈ reserved) := by
    unfold status_cols at hc
    split at hc
    · have := (List.mem_filter.mp hc).2
      simpa using this
    · split at hc
      · have := (List.mem_filter.mp hc).2
        simpa using this
      · cases hc
  intro hk
  apply hres
  simp only [mergeKeys, List.mem_cons, List.not_mem_nil, or_false] at hk
  rcases hk with h | h <;> subst h <;> simp [reserved]

theorem mem_mergeRows_cases {pre post : DF} {m : Row}
    (h : m ∈ mergeRows pre post) :
    (∃ l ∈ pre.rows, m = combineL pre post l) ∨
    (∃ l ∈ pre.rows, ∃ r ∈ post.rows, m = combine pre post l r) ∨
    (∃ r ∈ post.rows, m = combineR pre post r) := by
  rw [mergeRows] at h
  rcases List.mem_append.mp h with h | h
  · obtain ⟨bundle, hb, hmb⟩ := List.mem_flatten.mp h
    obtain ⟨l, hl, rfl⟩ := List.mem_map.mp hb
    rcases mem_leftBundle hmb with h | ⟨r, hr, _, h⟩
    · exact Or.inl ⟨l, hl, h⟩
    · exact Or.inr (Or.inl ⟨l, hl, r, hr, h⟩)
  · obtain ⟨r, hr, rfl⟩ := List.mem_map.mp h
    have hr' : r ∈ post.rows := by
      unfold unmatchedR at hr
      exact (List.mem_filter.mp hr).1
    exact Or.inr (Or.inr ⟨r, hr', rfl⟩)

theorem find_isSome_of_label_mem {r : Row} {k : String}
    (h : ∃ p ∈ r, p.1 = k) : (Row.find r k).isSome = true := by
  unfold Row.find
  cases hf : List.find? (fun p => p.1 == k) r with
  | some p => simp
  | none =>
    obtain ⟨p, hp, he⟩ := h
    have := List.find?_eq_none.mp hf p hp
    simp [he] at this

/-- In every merged record the `_Pre` and `_Post` fields of a column
shared by both frames are present as labels. -/
theorem presence_in_merged {pre post : DF} {m : Row}
    (hmem : m ∈ mergeRows pre post) {c : String}
    (hcommon : c ∈ commonCols pre post) :
    (Row.find m (c ++ "_Pre")).isSome = true ∧
    (Row.find m (c ++ "_Post")).isSome = true := by
  have hcp : c ∈ pre.cols := (mem_commonCols.mp hcommon).1
  have hcq : c ∈ post.cols := (mem_commonCols.mp hcommon).2.1
  have hknk : ¬(c ∈ mergeKeys) := (mem_commonCols.mp hcommon).2.2
  have hls := lsuf_of_common hcommon
  have hrs := rsuf_of_common hcommon
  have hcf : c ∈ post.cols.filter (fun d => !(mergeKeys.contains d)) := by
    refine List.mem_filter.mpr ⟨hcq, ?_⟩
    simp only [Bool.not_eq_true']
    cases hk : mergeKeys.contains c
    · rfl
    · exact absurd (by simpa [List.contains_eq_any_beq, List.any_eq_true,
        beq_iff_eq] using hk : c ∈ mergeKeys) hknk
  rcases mem_mergeRows_cases hmem with ⟨l, _, rfl⟩ | ⟨l, _, r, _, rfl⟩ | ⟨r, _, rfl⟩
  · constructor
    · exact find_isSome_of_label_mem ⟨(lsuf pre post c, Row.get l c),
        List.mem_append_left _ (List.mem_map_of_mem _ hcp), hls⟩
    · exact find_isSome_of_label_mem ⟨(rsuf pre post c, none),
        List.mem_append_right _ (List.mem_map_of_mem _ hcf), hrs⟩
  · constructor
    · exact find_isSome_of_label_mem ⟨(lsuf pre post c, Row.get l c),
        List.mem_append_left _ (List.mem_map_of_mem _ hcp), hls⟩
    · exact find_isSome_of_label_mem ⟨(rsuf pre post c, Row.get r c),
        List.mem_append_right _ (List.mem_map_of_mem _ hcf), hrs⟩
  · constructor
    · exact find_isSome_of_label_mem
        ⟨(lsuf pre post c, if mergeKeys.contains c then Row.get r c else none),
          List.mem_append_left _ (List.mem_map_of_mem _ hcp), hls⟩
    · exact find_isSome_of_label_mem ⟨(rsuf pre post c, Row.get r c),
        List.mem_append_right _ (List.mem_map_of_mem _ hcf), hrs⟩

theorem Row.get_eq_none_of_matching_none {r : Row} {k : String}
    (h : ∀ p ∈ r, p.1 = k → p.2 = none) : Row.get r k = none := by
  unfold Row.get Row.find
  cases hf : List.find? (fun p => p.1 == k) r with
  | none => rfl
  | some p =>
    have hm := List.mem_of_find?_eq_some hf
    have hp := List.find?_some hf
    simp only [beq_iff_eq] at hp
    simp [h p hm hp]

/-- An unmatched left row's merged record holds a missing value in every
shared status column's `_Post` field. -/
theorem combineL_post_none {pre post : DF} {l : Row} {c : String}
    (hcommon : c ∈ commonCols pre post)
    (hnp : ¬((c ++ "_Post") ∈ pre.cols)) :
    Row.get (combineL pre post l) (c ++ "_Post") = none := by
  apply Row.get_eq_none_of_matching_none
  intro p hp hlbl
  unfold combineL leftBlock rightNulls at hp
  rcases List.mem_append.mp hp with hp | hp
  · obtain ⟨c', hc', rfl⟩ := List.mem_map.mp hp
    exfalso
    unfold lsuf at hlbl
    by_cases hcm : (commonCols pre post).contains c'
    · rw [if_pos hcm] at hlbl
      exact append_Pre_ne_append_Post c' c hlbl
    · rw [if_neg hcm] at hlbl
      exact hnp (hlbl ▸ hc')
  · obtain ⟨c', _, rfl⟩ := List.mem_map.mp hp
    rfl

/-- An unmatched right row's merged record holds a missing value in every
shared status column's `_Pre` field. -/
theorem combineR_pre_none {pre post : DF} {r : Row} {c : String}
    (hcommon : c ∈ commonCols pre post)
    (hnq : ¬((c ++ "_Pre") ∈ post.cols)) :
    Row.get (combineR pre post r) (c ++ "_Pre") = none := by
  apply Row.get_eq_none_of_matching_none
  intro p hp hlbl
  unfold combineR leftBlockOf rightBlock at hp
  rcases List.mem_append.mp hp with hp | hp
  · obtain ⟨c', hc', rfl⟩ := List.mem_map.mp hp
    simp only
    have hnk : mergeKeys.contains c' = false := by
      unfold lsuf at hlbl
      by_cases hcm : (commonCols pre post).contains c'
      · rw [if_pos hcm] at hlbl
        have : c' = c := string_append_right_cancel hlbl
        subst this
        cases hk : mergeKeys.contains c'
        · rfl
        · exact absurd (by simpa [List.contains_eq_any_beq, List.any_eq_true,
            beq_iff_eq] using hk : c' ∈ mergeKeys)
            ((mem_commonCols.mp hcommon).2.2)
      · rw [if_neg hcm] at hlbl
        subst hlbl
        cases hk : mergeKeys.contains (c ++ "_Pre")
        · rfl
        · exfalso
          have : (c ++ "_Pre") ∈ mergeKeys := by
            simpa [List.contains_eq_any_beq, List.any_eq_true, beq_iff_eq]
              using hk
          exact key_ne_append_Pre this c rfl
    rw [hnk]
    simp
  · obtain ⟨c', hc', rfl⟩ := List.mem_map.mp hp
    exfalso
    unfold rsuf at hlbl
    by_cases hcm : (commonCols pre post).contains c'
    · rw [if_pos hcm] at hlbl
      exact append_Pre_ne_append_Post c c' hlbl.symm
    · rw [if_neg hcm] at hlbl
      exact hnq (hlbl ▸ (List.mem_filter.mp hc').1)

/-- C5 counterexample: when the two roles' status-column sets differ (Pre
has status column `A`, Post has `B`), the joined record produced for the
shared key carries `A` unsuffixed: it has neither an `A_Pre` nor an
`A_Post` field, although `A` is an authoritative status column. -/
theorem C5_counterexample :
    "A" ∈ status_cols dfDriftPre dfDriftPost ∧
    merge dfDriftPre dfDriftPost = .ok dfDriftM ∧
    dfDriftM.rows.length = 1 ∧
    dfDriftM.rows.all (fun m => decide (Row.find m "A_Post" = none) &&
      decide (Row.find m "A_Pre" = none)) = true :=
  ⟨by decide, rfl, by decide, by decide⟩

/-- C5 amended: provided a status column of the authoritative schema is
present in both frames' column sets (no schema drift between the roles for
that column, and no column of either frame already carrying the suffixed
name), every joined record contains both its `_Pre` and its `_Post` field;
the field of a side that had no matching row for the key holds a missing
value. -/
theorem C5_amended (pre post dfM : DF) (c : String)
    (hm : merge pre post = .ok dfM)
    (hc : c ∈ status_cols pre post)
    (hcp : c ∈ pre.cols) (hcq : c ∈ post.cols)
    (hnp : ¬((c ++ "_Post") ∈ pre.cols))
    (hnq : ¬((c ++ "_Pre") ∈ post.cols)) :
    (∀ m ∈ dfM.rows,
      (Row.find m (c ++ "_Pre")).isSome = true ∧
      (Row.find m (c ++ "_Post")).isSome = true) ∧
    (∀ l ∈ pre.rows, (post.rows.filter (keyMatch l)).isEmpty = true →
      combineL pre post l ∈ dfM.rows ∧
      Row.get (combineL pre post l) (c ++ "_Post") = none) ∧
    (∀ r ∈ post.rows, r ∈ unmatchedR pre post →
      combineR pre post r ∈ dfM.rows ∧
      Row.get (combineR pre post r) (c ++ "_Pre") = none) := by
  obtain ⟨hS, hN, hS', hN', hcols, hrows⟩ := merge_ok_parts hm
  have hcommon : c ∈ commonCols pre post :=
    mem_commonCols.mpr ⟨hcp, hcq, status_cols_not_key hc⟩
  rw [hrows]
  refine ⟨fun m hmem => presence_in_merged hmem hcommon, ?_, ?_⟩
  · intro l hl hempty
    refine ⟨?_, combineL_post_none hcommon hnp⟩
    apply mem_mergeRows_of_bundle hl
    unfold leftBundle
    rw [if_pos hempty]
    simp
  · intro r _ hru
    refine ⟨?_, combineR_pre_none hcommon hnq⟩
    rw [mergeRows]
    exact List.mem_append_right _ (List.mem_map_of_mem _ hru)

/-- Witness for C5 amended: in the mismatch-example run (both roles share
the status column RSSI) the joined record has both `RSSI_Pre` and
`RSSI_Post` fields. -/
theorem C5_amended_witness :
    merge dfPreM dfPostM = .ok dfMM ∧
    dfMM.rows.all (fun m => (Row.find m ("RSSI" ++ "_Pre")).isSome &&
      (Row.find m ("RSSI" ++ "_Post")).isSome) = true := by
  refine ⟨rfl, ?_⟩
  rw [List.all_eq_true]
  intro m hmem
  have h := (C5_amended dfPreM dfPostM dfMM "RSSI" rfl (by decide) (by decide)
    (by decide) (by decide) (by decide)).1 m hmem
  rw [Bool.and_eq_true]
  exact ⟨h.1, h.2⟩

/-! # Error propagation through the pipeline -/

/-- C2 (documents the code defect behind the claim): with zero uploaded
documents of one role, `process_files` returns the columnless empty frame
and `pd.merge` raises `KeyError` because the join-key columns are absent
from it; the run aborts with an error and no report at all is produced —
in particular no report classifying every row `MISSING PRE` / `MISSING
POST`, and no empty report when both roles have zero documents. -/
theorem C2_zero_docs_fatal :
    runAudit [] [postDocM] = .error "KeyError: Sector" ∧
    runAudit [preDocM] [] = .error "KeyError: Sector" ∧
    runAudit [] [] = .error "KeyError: Sector" :=
  ⟨rfl, rfl, rfl⟩

theorem extract_error {d : Doc}
    (hbad : d.parseOk = false ∨
      List.find? (fun p => p.1 == "Summary") d.sheets = none) :
    ∃ e, extract d = .error e := by
  have hre : ∃ e, readSummary d = .error e := by
    rcases hbad with h | h
    · exact ⟨"not a valid tabular document: " ++ d.name,
        by simp [readSummary, h]⟩
    · cases hpk : d.parseOk
      · exact ⟨"not a valid tabular document: " ++ d.name,
          by simp [readSummary, hpk]⟩
      · exact ⟨"Worksheet named Summary not found in " ++ d.name,
          by simp [readSummary, hpk, h]⟩
  obtain ⟨e, he⟩ := hre
  refine ⟨e, ?_⟩
  unfold extract
  rw [he]
  rfl

theorem extractAll_error {docs : List Doc} {d : Doc} (hd : d ∈ docs)
    {e : String} (he : extract d = .error e) :
    ∃ e', extractAll docs = .error e' := by
  induction docs with
  | nil => cases hd
  | cons d0 ds ih =>
    unfold extractAll
    cases hx : extract d0 with
    | error e0 =>
      exact ⟨e0, by simp [Bind.bind, Except.bind]⟩
    | ok f0 =>
      rcases List.mem_cons.mp hd with rfl | hd'
      · rw [hx] at he
        cases he
      · obtain ⟨e', he'⟩ := ih hd'
        exact ⟨e', by simp [Bind.bind, Except.bind, he']⟩

theorem process_files_error {docs : List Doc} {d : Doc} (hd : d ∈ docs)
    (hbad : d.parseOk = false ∨
      List.find? (fun p => p.1 == "Summary") d.sheets = none) :
    ∃ e, process_files docs = .error e := by
  obtain ⟨e, he⟩ := extract_error hbad
  obtain ⟨e', he'⟩ := extractAll_error hd he
  cases docs with
  | nil => cases hd
  | cons d0 ds =>
    refine ⟨e', ?_⟩
    unfold process_files
    rw [he']
    rfl

/-- C7: a document lacking a sheet literally named "Summary" (or not a
valid tabular document at all) makes extraction fail; the failure
propagates and the entire run aborts with an error — no report, partial or
otherwise, is produced. -/
theorem C7_malformed_aborts (pdocs qdocs : List Doc) (d : Doc)
    (hd : d ∈ pdocs ∨ d ∈ qdocs)
    (hbad : d.parseOk = false ∨
      List.find? (fun p => p.1 == "Summary") d.sheets = none) :
    isError (runAudit pdocs qdocs) = true := by
  rcases hd with hd | hd
  · obtain ⟨e, he⟩ := process_files_error hd hbad
    unfold runAudit
    rw [he]
    rfl
  · cases hq : process_files pdocs with
    | error e =>
      unfold runAudit
      rw [hq]
      rfl
    | ok dfPre =>
      obtain ⟨e, he⟩ := process_files_error hd hbad
      unfold runAudit
      rw [hq, he]
      rfl

/-- Witness for C7: a Precheck document whose only sheet is named
"Sheet1" aborts the concrete run. -/
theorem C7_malformed_aborts_witness :
    isError (runAudit [badDoc] [postDocM]) = true :=
  C7_malformed_aborts [badDoc] [postDocM] badDoc
    (Or.inl (List.mem_cons_self badDoc [])) (Or.inr rfl)

/-! # Lemmas about report assembly -/

theorem mem_of_contains {l : List String} {c : String}
    (h : l.contains c = true) : c ∈ l := by
  simp only [List.contains_eq_any_beq, List.any_eq_true, beq_iff_eq] at h
  obtain ⟨x, hx, rfl⟩ := h
  exact hx

theorem applyVerify_length {preEmpty postEmpty : Bool} {cols : List String}
    {rows out : List Row}
    (h : applyVerify preEmpty postEmpty cols rows = .ok out) :
    out.length = rows.length := by
  induction rows generalizing out with
  | nil =>
    simp only [applyVerify] at h
    cases h
    rfl
  | cons r rs ih =>
    unfold applyVerify at h
    cases hv : verify preEmpty postEmpty cols r with
    | error e => rw [hv] at h; simp [Bind.bind, Except.bind] at h
    | ok s =>
      rw [hv] at h
      cases ha : applyVerify preEmpty postEmpty cols rs with
      | error e => rw [ha] at h; simp [Bind.bind, Except.bind] at h
      | ok rest =>
        rw [ha] at h
        simp only [Bind.bind, Except.bind, Except.ok.injEq] at h
        rw [← h]
        simp [ih ha]

theorem row_find_cons_pos {q : String × Cell} {qs : Row} {c : String}
    (h : (q.1 == c) = true) :
    List.find? (fun p => p.1 == c) (q :: qs) = some q :=
  List.find?_cons_of_pos qs (show (fun p : String × Cell => p.1 == c) q = true from h)

theorem row_find_cons_neg {q : String × Cell} {qs : Row} {c : String}
    (h : (q.1 == c) = false) :
    List.find? (fun p => p.1 == c) (q :: qs) =
      List.find? (fun p => p.1 == c) qs := by
  apply List.find?_cons_of_neg
  simp [h]

theorem Row.get_cons {q : String × Cell} {qs : Row} {c : String} :
    Row.get (q :: qs) c = if (q.1 == c) = true then q.2 else Row.get qs c := by
  unfold Row.get Row.find
  by_cases h : (q.1 == c) = true
  · rw [row_find_cons_pos h, if_pos h]
    rfl
  · have h' : (q.1 == c) = false := by
      cases hx : q.1 == c
      · rfl
      · exact absurd hx h
    rw [row_find_cons_neg h', if_neg h]

theorem get_map_replace (r : Row) (k : String) (v : Cell)
    (hany : r.any (fun p => p.1 == k) = true) :
    Row.get (r.map (fun p => if p.1 == k then (p.1, v) else p)) k = v := by
  induction r with
  | nil => simp at hany
  | cons q qs ih =>
    simp only [List.map_cons]
    by_cases hq : (q.1 == k) = true
    · rw [if_pos hq, Row.get_cons, if_pos hq]
    · rw [if_neg hq, Row.get_cons, if_neg hq]
      have hany' : qs.any (fun p => p.1 == k) = true := by
        rcases List.any_eq_true.mp hany with ⟨p, hp, hpk⟩
        rcases List.mem_cons.mp hp with rfl | hp'
        · exact absurd hpk hq
        · exact List.any_eq_true.mpr ⟨p, hp', hpk⟩
      exact ih hany'

theorem get_append_single (r : Row) (k : String) (v : Cell)
    (hnone : r.any (fun p => p.1 == k) = false) :
    Row.get (r ++ [(k, v)]) k = v := by
  induction r with
  | nil =>
    rw [List.nil_append, Row.get_cons, if_pos (by simp)]
  | cons q qs ih =>
    simp only [List.any_cons, Bool.or_eq_false_iff] at hnone
    rw [List.cons_append, Row.get_cons, if_neg (by simp [hnone.1])]
    exact ih hnone.2

theorem get_setEntry_same (r : Row) (k : String) (v : Cell) :
    Row.get (setEntry k v r) k = v := by
  unfold setEntry
  by_cases hany : r.any (fun p => p.1 == k) = true
  · rw [if_pos hany]
    exact get_map_replace r k v hany
  · rw [if_neg hany]
    refine get_append_single r k v ?_
    cases hx : r.any (fun p => p.1 == k)
    · rfl
    · exact absurd hx hany

theorem get_setEntry_other (r : Row) {k c : String} (v : Cell)
    (h : ¬(c = k)) :
    Row.get (setEntry k v r) c = Row.get r c := by
  unfold setEntry
  by_cases hany : r.any (fun p => p.1 == k) = true
  · rw [if_pos hany]
    clear hany
    induction r with
    | nil => rfl
    | cons q qs ih =>
      simp only [List.map_cons]
      by_cases hqk : (q.1 == k) = true
      · rw [if_pos hqk, Row.get_cons, Row.get_cons]
        have hqc : (q.1 == c) = false := by
          have hq : q.1 = k := by simpa using hqk
          simp only [hq, beq_eq_false_iff_ne, ne_eq]
          exact fun hk => h hk.symm
        rw [if_neg (by simp [hqc]), if_neg (by simp [hqc])]
        exact ih
      · rw [if_neg hqk, Row.get_cons, Row.get_cons]
        by_cases hqc : (q.1 == c) = true
        · rw [if_pos hqc, if_pos hqc]
        · rw [if_neg hqc, if_neg hqc]
          exact ih
  · rw [if_neg hany]
    unfold Row.get Row.find
    rw [List.find?_append]
    cases hf : List.find? (fun p => p.1 == c) r with
    | some p => simp
    | none =>
      have hkc : ((k, v).1 == c) = false := by
        simp only [beq_eq_false_iff_ne, ne_eq]
        exact fun hk => h hk.symm
      rw [row_find_cons_neg hkc]
      rfl

theorem get_reindex_mem {cols : List String} {r : Row} {c : String}
    (h : c ∈ cols) :
    Row.get (reindex cols r) c = Row.get r c := by
  induction cols with
  | nil => cases h
  | cons d ds ih =>
    have hred : reindex (d :: ds) r = (d, Row.get r d) :: reindex ds r := rfl
    rw [hred, Row.get_cons]
    by_cases hd : (d == c) = true
    · rw [if_pos hd]
      have hdc : d = c := by simpa using hd
      rw [hdc]
    · rw [if_neg hd]
      have h' : c ∈ ds := by
        rcases List.mem_cons.mp h with rfl | h'
        · exact absurd (by simp) hd
        · exact h'
      exact ih h'

theorem whereCol_parts {src gate n : String} {df df' : DF}
    (h : whereCol src gate n df = .ok df') :
    df'.rows = df.rows.map (fun r =>
      setEntry n (if isna (Row.get r gate) then none else Row.get r src) r) ∧
    n ∈ df'.cols ∧ (∀ c ∈ df.cols, c ∈ df'.cols) ∧
    df'.rows.length = df.rows.length := by
  unfold whereCol at h
  split at h
  · cases h
    refine ⟨rfl, ?_, ?_, by simp⟩
    · split
      · next hcond => exact mem_of_contains hcond
      · exact List.mem_append_right _ (List.mem_cons_self n [])
    · intro c hc'
      split
      · exact hc'
      · exact List.mem_append_left _ hc'
  · cases h

theorem whereCol_ok {src gate n : String} {df : DF}
    (hs : src ∈ df.cols) (hg : gate ∈ df.cols) :
    ∃ df', whereCol src gate n df = .ok df' := by
  unfold whereCol
  rw [if_pos (by rw [contains_of_mem hs, contains_of_mem hg]; rfl)]
  exact ⟨_, rfl⟩

theorem select_parts {sel : List String} {df df' : DF}
    (h : select sel df = .ok df') :
    df'.cols = sel ∧ df'.rows = df.rows.map (reindex sel) := by
  unfold select at h
  split at h
  · cases h
    exact ⟨rfl, rfl⟩
  · cases h

theorem select_ok {sel : List String} {df : DF}
    (hall : ∀ c ∈ sel, c ∈ df.cols) :
    ∃ df', select sel df = .ok df' := by
  unfold select
  rw [if_pos]
  · exact ⟨_, rfl⟩
  · rw [List.all_eq_true]
    intro c hc
    exact contains_of_mem (hall c hc)

theorem reconstruct_parts {df df' : DF} (h : reconstruct df = .ok df') :
    df'.rows = df.rows.map reconRow ∧
    df'.rows.length = df.rows.length ∧
    (∀ c, c ∈ df.cols → ¬(c = "Sector") → ¬(c = "Name") → c ∈ df'.cols) ∧
    "Sector_Pre" ∈ df'.cols ∧ "Name_Pre" ∈ df'.cols ∧
    "Sector_Post" ∈ df'.cols ∧ "Name_Post" ∈ df'.cols := by
  unfold reconstruct at h
  cases h1 : whereCol "Sector_U" "Site_File_Pre" "Sector_Pre"
      (renameCol "Name" "Name_U" (renameCol "Sector" "Sector_U" df)) with
  | error e => rw [h1] at h; simp [Bind.bind, Except.bind] at h
  | ok df1 =>
  rw [h1] at h
  simp only [Bind.bind, Except.bind] at h
  cases h2 : whereCol "Name_U" "Site_File_Pre" "Name_Pre" df1 with
  | error e => rw [h2] at h; simp [Except.bind] at h
  | ok df2 =>
  rw [h2] at h
  simp only [Except.bind] at h
  cases h3 : whereCol "Sector_U" "Site_File_Post" "Sector_Post" df2 with
  | error e => rw [h3] at h; simp [Except.bind] at h
  | ok df3 =>
  rw [h3] at h
  simp only [Except.bind] at h
  cases h4 : whereCol "Name_U" "Site_File_Post" "Name_Post" df3 with
  | error e => rw [h4] at h; simp [Except.bind] at h
  | ok df4 =>
  rw [h4] at h
  simp only [Except.bind, Except.ok.injEq] at h
  subst h
  obtain ⟨hr1, hn1, hm1, hl1⟩ := whereCol_parts h1
  obtain ⟨hr2, hn2, hm2, hl2⟩ := whereCol_parts h2
  obtain ⟨hr3, hn3, hm3, hl3⟩ := whereCol_parts h3
  obtain ⟨hr4, hn4, hm4, hl4⟩ := whereCol_parts h4
  have hrows : df4.rows = df.rows.map reconRow := by
    rw [hr4, hr3, hr2, hr1]
    have hren : (renameCol "Name" "Name_U" (renameCol "Sector" "Sector_U" df)).rows =
        (df.rows.map (renameEntry "Sector" "Sector_U")).map
          (renameEntry "Name" "Name_U") := rfl
    rw [hren]
    simp only [List.map_map]
    apply List.map_congr_left
    intro r _
    rfl
  refine ⟨hrows, by rw [hrows]; simp, ?_, ?_, ?_, ?_, hn4⟩
  · intro c hc hcS hcN
    have h0 : c ∈ (renameCol "Name" "Name_U" (renameCol "Sector" "Sector_U" df)).cols := by
      have : (renameCol "Name" "Name_U" (renameCol "Sector" "Sector_U" df)).cols =
          (df.cols.map (fun x => if x == "Sector" then "Sector_U" else x)).map
            (fun x => if x == "Name" then "Name_U" else x) := rfl
      rw [this]
      refine List.mem_map.mpr ⟨c, List.mem_map.mpr ⟨c, hc, ?_⟩, ?_⟩
      · simp [hcS]
      · simp [hcN]
    exact hm4 _ (hm3 _ (hm2 _ (hm1 _ h0)))
  · exact hm4 _ (hm3 _ (hm2 _ hn1))
  · exact hm4 _ (hm3 _ hn2)
  · exact hm4 _ hn3

theorem reconstruct_ok {df : DF}
    (hS : "Sector" ∈ df.cols) (hNm : "Name" ∈ df.cols)
    (hfp : "Site_File_Pre" ∈ df.cols) (hfq : "Site_File_Post" ∈ df.cols) :
    ∃ df', reconstruct df = .ok df' := by
  have hcols0 : (renameCol "Name" "Name_U" (renameCol "Sector" "Sector_U" df)).cols =
      (df.cols.map (fun x => if x == "Sector" then "Sector_U" else x)).map
        (fun x => if x == "Name" then "Name_U" else x) := rfl
  have hSU : "Sector_U" ∈ (renameCol "Name" "Name_U" (renameCol "Sector" "Sector_U" df)).cols := by
    rw [hcols0]
    exact List.mem_map.mpr ⟨"Sector_U", List.mem_map.mpr ⟨"Sector", hS, rfl⟩, rfl⟩
  have hNU : "Name_U" ∈ (renameCol "Name" "Name_U" (renameCol "Sector" "Sector_U" df)).cols := by
    rw [hcols0]
    exact List.mem_map.mpr ⟨"Name", List.mem_map.mpr ⟨"Name", hNm, rfl⟩, rfl⟩
  have hFP : "Site_File_Pre" ∈ (renameCol "Name" "Name_U" (renameCol "Sector" "Sector_U" df)).cols := by
    rw [hcols0]
    exact List.mem_map.mpr ⟨"Site_File_Pre", List.mem_map.mpr ⟨"Site_File_Pre", hfp, rfl⟩, rfl⟩
  have hFQ : "Site_File_Post" ∈ (renameCol "Name" "Name_U" (renameCol "Sector" "Sector_U" df)).cols := by
    rw [hcols0]
    exact List.mem_map.mpr ⟨"Site_File_Post", List.mem_map.mpr ⟨"Site_File_Post", hfq, rfl⟩, rfl⟩
  obtain ⟨df1, h1⟩ := whereCol_ok hSU hFP
  obtain ⟨_, _, hm1, _⟩ := whereCol_parts h1
  obtain ⟨df2, h2⟩ := whereCol_ok (hm1 _ hNU) (hm1 _ hFP)
  obtain ⟨_, _, hm2, _⟩ := whereCol_parts h2
  obtain ⟨df3, h3⟩ := whereCol_ok (hm2 _ (hm1 _ hSU)) (hm2 _ (hm1 _ hFQ))
  obtain ⟨_, _, hm3, _⟩ := whereCol_parts h3
  obtain ⟨df4, h4⟩ := whereCol_ok (hm3 _ (hm2 _ (hm1 _ hNU))) (hm3 _ (hm2 _ (hm1 _ hFQ)))
  refine ⟨df4, ?_⟩
  unfold reconstruct
  rw [h1]
  simp only [Bind.bind, Except.bind]
  rw [h2]
  simp only [Except.bind]
  rw [h3]
  simp only [Except.bind]
  rw [h4]

theorem extract_cols {d : Doc} {f : DF} (h : extract d = .ok f) :
    ∃ rest, f.cols = "Site_File" :: "Sector" :: "Name" :: rest := by
  unfold extract at h
  cases hs : readSummary d with
  | error e => rw [hs] at h; simp [Bind.bind, Except.bind] at h
  | ok sh =>
    rw [hs] at h
    simp only [Bind.bind, Except.bind] at h
    cases hh : sh.headers.map pyStrip with
    | nil => rw [hh] at h; cases h
    | cons h0 t =>
      cases t with
      | nil => rw [hh] at h; cases h
      | cons h1 rest =>
        rw [hh] at h
        cases h
        exact ⟨rest, rfl⟩

theorem mem_foldl_unionCols (l : List DF) (acc : List String)
    (c : String) (h : c ∈ acc) :
    c ∈ l.foldl (fun a f => unionCols a f.cols) acc := by
  induction l generalizing acc with
  | nil => exact h
  | cons b bs ih =>
    exact ih (unionCols acc b.cols) (List.mem_append_left _ h)

theorem unionCols_nil (b : List String) : unionCols [] b = b := by
  unfold unionCols
  rw [List.nil_append]
  apply List.filter_eq_self.mpr
  intro c _
  rfl

theorem concatDF_cols_head (f : DF) (fs : List DF) (c : String)
    (hc : c ∈ f.cols) : c ∈ (concatDF (f :: fs)).cols := by
  unfold concatDF
  simp only [List.foldl_cons]
  apply mem_foldl_unionCols
  rw [unionCols_nil]
  exact hc

theorem process_files_cols {docs : List Doc} {df : DF} (hne : docs ≠ [])
    (h : process_files docs = .ok df) :
    "Site_File" ∈ df.cols ∧ "Sector" ∈ df.cols ∧ "Name" ∈ df.cols := by
  cases docs with
  | nil => exact absurd rfl hne
  | cons d ds =>
    unfold process_files at h
    cases hx : extractAll (d :: ds) with
    | error e => rw [hx] at h; simp [Bind.bind, Except.bind] at h
    | ok frames =>
      rw [hx] at h
      simp only [Bind.bind, Except.bind, Except.ok.injEq] at h
      unfold extractAll at hx
      cases he : extract d with
      | error e => rw [he] at hx; simp [Bind.bind, Except.bind] at hx
      | ok f =>
        rw [he] at hx
        simp only [Bind.bind, Except.bind] at hx
        cases hrest : extractAll ds with
        | error e => rw [hrest] at hx; simp [Except.bind] at hx
        | ok fs =>
          rw [hrest] at hx
          simp only [Except.bind, Except.ok.injEq] at hx
          obtain ⟨rest, hcols⟩ := extract_cols he
          subst h
          rw [← hx]
          refine ⟨?_, ?_, ?_⟩ <;>
            [skip; skip; skip] <;>
            apply concatDF_cols_head <;>
            rw [hcols] <;> simp

/-- Forward computation of the pipeline from the outcome of each stage. -/
theorem runAudit_eq {pdocs qdocs : List Doc} {dfPre dfPost dfM : DF}
    {rows1 : List Row} {df2 full : DF}
    (hp : process_files pdocs = .ok dfPre)
    (hq : process_files qdocs = .ok dfPost)
    (hm : merge dfPre dfPost = .ok dfM)
    (hv : applyVerify dfPre.isEmpty dfPost.isEmpty (status_cols dfPre dfPost)
      dfM.rows = .ok rows1)
    (hrec : reconstruct ⟨dfM.cols ++ ["Audit_Status"], rows1⟩ = .ok df2)
    (hsel : select (preColsSel (status_cols dfPre dfPost) ++
      postColsSel (status_cols dfPre dfPost) ++ ["Audit_Status"]) df2 = .ok full) :
    runAudit pdocs qdocs = .ok ⟨full, actionFilter full⟩ := by
  unfold runAudit
  rw [hp]
  simp only [Bind.bind, Except.bind]
  rw [hq]
  simp only [Except.bind]
  rw [hm]
  simp only [Except.bind]
  rw [hv]
  simp only [Except.bind]
  rw [hrec]
  simp only [Except.bind]
  rw [hsel]

/-- Inversion of a successful pipeline run into its stages. -/
theorem runAudit_ok_parts {pdocs qdocs : List Doc} {rep : Report}
    (hr : runAudit pdocs qdocs = .ok rep) :
    ∃ (dfPre dfPost dfM : DF) (rows1 : List Row) (df2 : DF),
      process_files pdocs = .ok dfPre ∧
      process_files qdocs = .ok dfPost ∧
      merge dfPre dfPost = .ok dfM ∧
      applyVerify dfPre.isEmpty dfPost.isEmpty (status_cols dfPre dfPost)
        dfM.rows = .ok rows1 ∧
      reconstruct ⟨dfM.cols ++ ["Audit_Status"], rows1⟩ = .ok df2 ∧
      select (preColsSel (status_cols dfPre dfPost) ++
        postColsSel (status_cols dfPre dfPost) ++ ["Audit_Status"]) df2 =
        .ok rep.full ∧
      rep.action = actionFilter rep.full := by
  unfold runAudit at hr
  cases h1 : process_files pdocs with
  | error e => rw [h1] at hr; simp [Bind.bind, Except.bind] at hr
  | ok dfPre =>
  rw [h1] at hr
  simp only [Bind.bind, Except.bind] at hr
  cases h2 : process_files qdocs with
  | error e => rw [h2] at hr; simp [Except.bind] at hr
  | ok dfPost =>
  rw [h2] at hr
  simp only [Except.bind] at hr
  cases h3 : merge dfPre dfPost with
  | error e => rw [h3] at hr; simp [Except.bind] at hr
  | ok dfM =>
  rw [h3] at hr
  simp only [Except.bind] at hr
  cases h4 : applyVerify dfPre.isEmpty dfPost.isEmpty (status_cols dfPre dfPost)
      dfM.rows with
  | error e => rw [h4] at hr; simp [Except.bind] at hr
  | ok rows1 =>
  rw [h4] at hr
  simp only [Except.bind] at hr
  cases h5 : reconstruct ⟨dfM.cols ++ ["Audit_Status"], rows1⟩ with
  | error e => rw [h5] at hr; simp [Except.bind] at hr
  | ok df2 =>
  rw [h5] at hr
  simp only [Except.bind] at hr
  cases h6 : select (preColsSel (status_cols dfPre dfPost) ++
      postColsSel (status_cols dfPre dfPost) ++ ["Audit_Status"]) df2 with
  | error e => rw [h6] at hr; simp [Except.bind] at hr
  | ok full =>
  rw [h6] at hr
  simp only [Except.bind, Except.ok.injEq] at hr
  subst hr
  exact ⟨dfPre, dfPost, dfM, rows1, df2, rfl, rfl, h3, h4, h5, h6, rfl⟩

/-- C8: the action report is exactly the subset of the full report whose
audit status differs from `"OK"`, with relative order preserved (it is a
sublist); its row count is the count of joined records with status other
than `"OK"`, and the full report's row count equals the total number of
joined records. -/
theorem C8_action_filter (pdocs qdocs : List Doc) (dfPre dfPost dfM : DF)
    (rep : Report)
    (hp : process_files pdocs = .ok dfPre)
    (hq : process_files qdocs = .ok dfPost)
    (hm : merge dfPre dfPost = .ok dfM)
    (hr : runAudit pdocs qdocs = .ok rep) :
    rep.action.rows = rep.full.rows.filter needsAction ∧
    List.Sublist rep.action.rows rep.full.rows ∧
    rep.action.rows.length = rep.full.rows.countP needsAction ∧
    rep.full.rows.length = dfM.rows.length := by
  obtain ⟨dfPre', dfPost', dfM', rows1, df2, h1, h2, h3, h4, h5, h6, h7⟩ :=
    runAudit_ok_parts hr
  rw [hp] at h1
  cases h1
  rw [hq] at h2
  cases h2
  rw [hm] at h3
  cases h3
  have hact : rep.action.rows = rep.full.rows.filter needsAction := by
    rw [h7]
    rfl
  refine ⟨hact, ?_, ?_, ?_⟩
  · rw [hact]
    exact List.filter_sublist _
  · rw [hact, List.countP_eq_length_filter]
  · obtain ⟨_, hrows6⟩ := select_parts h6
    rw [hrows6, List.length_map, (reconstruct_parts h5).2.1]
    exact applyVerify_length h4

/-- Witness for C8: the concrete mismatch-example run. -/
theorem C8_action_filter_witness :
    repM.action.rows = repM.full.rows.filter needsAction ∧
    List.Sublist repM.action.rows repM.full.rows ∧
    repM.action.rows.length = repM.full.rows.countP needsAction ∧
    repM.full.rows.length = dfMM.rows.length :=
  C8_action_filter [preDocM] [postDocM] dfPreM dfPostM dfMM repM rfl rfl rfl rfl

/-- The six relevant cells of a reconstructed row: the per-side key
columns hold the shared unified key exactly where that side's provenance
cell is present. -/
theorem reconRow_gets (r : Row) :
    Row.get (reconRow r) "Site_File_Pre" = Row.get (renameU r) "Site_File_Pre" ∧
    Row.get (reconRow r) "Site_File_Post" = Row.get (renameU r) "Site_File_Post" ∧
    Row.get (reconRow r) "Sector_Pre" =
      (if isna (Row.get (renameU r) "Site_File_Pre") = true then none
        else Row.get (renameU r) "Sector_U") ∧
    Row.get (reconRow r) "Name_Pre" =
      (if isna (Row.get (renameU r) "Site_File_Pre") = true then none
        else Row.get (renameU r) "Name_U") ∧
    Row.get (reconRow r) "Sector_Post" =
      (if isna (Row.get (renameU r) "Site_File_Post") = true then none
        else Row.get (renameU r) "Sector_U") ∧
    Row.get (reconRow r) "Name_Post" =
      (if isna (Row.get (renameU r) "Site_File_Post") = true then none
        else Row.get (renameU r) "Name_U") := by
  unfold reconRow
  refine ⟨?_, ?_, ?_, ?_, ?_, ?_⟩ <;>
    simp only [get_setEntry_same,
      get_setEntry_other _ _ (show ¬("Site_File_Pre" = "Name_Post") by decide),
      get_setEntry_other _ _ (show ¬("Site_File_Pre" = "Sector_Post") by decide),
      get_setEntry_other _ _ (show ¬("Site_File_Pre" = "Name_Pre") by decide),
      get_setEntry_other _ _ (show ¬("Site_File_Pre" = "Sector_Pre") by decide),
      get_setEntry_other _ _ (show ¬("Site_File_Post" = "Name_Post") by decide),
      get_setEntry_other _ _ (show ¬("Site_File_Post" = "Sector_Post") by decide),
      get_setEntry_other _ _ (show ¬("Site_File_Post" = "Name_Pre") by decide),
      get_setEntry_other _ _ (show ¬("Site_File_Post" = "Sector_Pre") by decide),
      get_setEntry_other _ _ (show ¬("Sector_Pre" = "Name_Post") by decide),
      get_setEntry_other _ _ (show ¬("Sector_Pre" = "Sector_Post") by decide),
      get_setEntry_other _ _ (show ¬("Sector_Pre" = "Name_Pre") by decide),
      get_setEntry_other _ _ (show ¬("Name_Pre" = "Name_Post") by decide),
      get_setEntry_other _ _ (show ¬("Name_Pre" = "Sector_Post") by decide),
      get_setEntry_other _ _ (show ¬("Sector_Post" = "Name_Post") by decide),
      get_setEntry_other _ _ (show ¬("Sector_U" = "Name_Post") by decide),
      get_setEntry_other _ _ (show ¬("Sector_U" = "Sector_Post") by decide),
      get_setEntry_other _ _ (show ¬("Sector_U" = "Name_Pre") by decide),
      get_setEntry_other _ _ (show ¬("Sector_U" = "Sector_Pre") by decide),
      get_setEntry_other _ _ (show ¬("Name_U" = "Name_Post") by decide),
      get_setEntry_other _ _ (show ¬("Name_U" = "Sector_Post") by decide),
      get_setEntry_other _ _ (show ¬("Name_U" = "Name_Pre") by decide),
      get_setEntry_other _ _ (show ¬("Name_U" = "Sector_Pre") by decide)]

/-- C9: in the assembled report, each side's `sector` / `name` columns are
populated with the record's shared unified join-key values exactly when
that side's `site_label` cell is present; when the side's `site_label` is
missing the side's `sector` / `name` cells are missing as well. -/
theorem C9_side_keys (pdocs qdocs : List Doc) (rep : Report)
    (hr : runAudit pdocs qdocs = .ok rep) :
    ∀ m ∈ rep.full.rows, ∃ us un : Cell,
      Row.get m "Sector_Pre" =
        (if isna (Row.get m "Site_File_Pre") = true then none else us) ∧
      Row.get m "Name_Pre" =
        (if isna (Row.get m "Site_File_Pre") = true then none else un) ∧
      Row.get m "Sector_Post" =
        (if isna (Row.get m "Site_File_Post") = true then none else us) ∧
      Row.get m "Name_Post" =
        (if isna (Row.get m "Site_File_Post") = true then none else un) := by
  obtain ⟨dfPre, dfPost, dfM, rows1, df2, h1, h2, h3, h4, h5, h6, h7⟩ :=
    runAudit_ok_parts hr
  obtain ⟨hcols6, hrows6⟩ := select_parts h6
  intro m hm
  rw [hrows6] at hm
  obtain ⟨m2, hm2, rfl⟩ := List.mem_map.mp hm
  rw [(reconstruct_parts h5).1] at hm2
  obtain ⟨m1, _, rfl⟩ := List.mem_map.mp hm2
  have hsel : ∀ c : String,
      c ∈ ["Site_File_Pre", "Sector_Pre", "Name_Pre"] ∨
      c ∈ ["Site_File_Post", "Sector_Post", "Name_Post"] →
      c ∈ preColsSel (status_cols dfPre dfPost) ++
        postColsSel (status_cols dfPre dfPost) ++ ["Audit_Status"] := by
    intro c hc
    apply List.mem_append_left
    rcases hc with hc | hc
    · apply List.mem_append_left
      unfold preColsSel
      exact List.mem_append_left _ hc
    · apply List.mem_append_right
      unfold postColsSel
      exact List.mem_append_left _ hc
  obtain ⟨e1, e2, e3, e4, e5, e6⟩ := reconRow_gets m1
  refine ⟨Row.get (renameU m1) "Sector_U", Row.get (renameU m1) "Name_U",
    ?_, ?_, ?_, ?_⟩
  · rw [get_reindex_mem (hsel "Sector_Pre" (Or.inl (by simp))),
      get_reindex_mem (hsel "Site_File_Pre" (Or.inl (by simp))), e1, e3]
  · rw [get_reindex_mem (hsel "Name_Pre" (Or.inl (by simp))),
      get_reindex_mem (hsel "Site_File_Pre" (Or.inl (by simp))), e1, e4]
  · rw [get_reindex_mem (hsel "Sector_Post" (Or.inr (by simp))),
      get_reindex_mem (hsel "Site_File_Post" (Or.inr (by simp))), e2, e5]
  · rw [get_reindex_mem (hsel "Name_Post" (Or.inr (by simp))),
      get_reindex_mem (hsel "Site_File_Post" (Or.inr (by simp))), e2, e6]

/-- Witness for C9: the assembled row of the concrete mismatch-example
run, with both sides present. -/
theorem C9_side_keys_witness :
    mRep ∈ repM.full.rows ∧
    (∃ us un : Cell,
      Row.get mRep "Sector_Pre" =
        (if isna (Row.get mRep "Site_File_Pre") = true then none else us) ∧
      Row.get mRep "Name_Pre" =
        (if isna (Row.get mRep "Site_File_Pre") = true then none else un) ∧
      Row.get mRep "Sector_Post" =
        (if isna (Row.get mRep "Site_File_Post") = true then none else us) ∧
      Row.get mRep "Name_Post" =
        (if isna (Row.get mRep "Site_File_Post") = true then none else un)) :=
  ⟨by decide, C9_side_keys [preDocM] [postDocM] repM rfl mRep (by decide)⟩

/-- C6 counterexample: a run in which both unified tables are empty (zero
Precheck documents, one Postcheck document whose Summary sheet has no data
rows) does not complete: the join raises `KeyError` because the columnless
Pre frame lacks the join-key columns, and no (empty) report is produced. -/
theorem C6_counterexample :
    process_files ([] : List Doc) = .ok ⟨[], []⟩ ∧
    process_files [postDocE] = .ok dfPostE ∧
    dfPostE.rows = [] ∧
    runAudit [] [postDocE] = .error "KeyError: Sector" :=
  ⟨rfl, rfl, rfl, rfl⟩

/-- C6 amended: the authoritative status-column list is taken from the Pre
unified table when it is non-empty, else from the Post one, and is empty
when both are empty; in that case every joined record is trivially
classified (there are none) and, provided each role supplied at least one
document so that both frames carry the join-key columns, the pipeline
completes without error, producing an empty full report and an empty
action report.  With zero documents on a side the join raises instead
(see the counterexample). -/
theorem C6_status_cols_empty (pdocs qdocs : List Doc) (dfPre dfPost : DF)
    (hp : process_files pdocs = .ok dfPre)
    (hq : process_files qdocs = .ok dfPost) :
    (dfPre.rows ≠ [] →
      status_cols dfPre dfPost =
        dfPre.cols.filter (fun c => !(reserved.contains c))) ∧
    (dfPre.rows = [] → dfPost.rows ≠ [] →
      status_cols dfPre dfPost =
        dfPost.cols.filter (fun c => !(reserved.contains c))) ∧
    (dfPre.rows = [] → dfPost.rows = [] →
      status_cols dfPre dfPost = [] ∧
      (pdocs ≠ [] → qdocs ≠ [] →
        (runAudit pdocs qdocs).map
          (fun rep => (rep.full.rows, rep.action.rows)) = .ok ([], []))) := by
  refine ⟨?_, ?_, ?_⟩
  · intro h
    unfold status_cols DF.isEmpty
    simp [h]
  · intro h1 h2
    unfold status_cols DF.isEmpty
    simp [h1, h2]
  · intro h1 h2
    have hsc : status_cols dfPre dfPost = [] := by
      unfold status_cols DF.isEmpty
      simp [h1, h2]
    refine ⟨hsc, ?_⟩
    intro hpne hqne
    obtain ⟨hsf1, hS1, hN1⟩ := process_files_cols hpne hp
    obtain ⟨hsf2, hS2, hN2⟩ := process_files_cols hqne hq
    have hm : merge dfPre dfPost =
        .ok ⟨mergedCols dfPre dfPost, mergeRows dfPre dfPost⟩ := by
      unfold merge
      rw [if_pos (by rw [contains_of_mem hS1, contains_of_mem hN1,
        contains_of_mem hS2, contains_of_mem hN2]; rfl)]
    have hrows0 : mergeRows dfPre dfPost = [] := by
      unfold mergeRows unmatchedR
      rw [h1, h2]
      rfl
    have hv : applyVerify dfPre.isEmpty dfPost.isEmpty
        (status_cols dfPre dfPost)
        (DF.mk (mergedCols dfPre dfPost) (mergeRows dfPre dfPost)).rows = .ok [] := by
      show applyVerify _ _ _ (mergeRows dfPre dfPost) = .ok []
      rw [hrows0]
      rfl
    have hSm : "Sector" ∈ mergedCols dfPre dfPost ++ ["Audit_Status"] := by
      apply List.mem_append_left
      unfold mergedCols
      apply List.mem_append_left
      have h := List.mem_map_of_mem (lsuf dfPre dfPost) hS1
      rwa [lsuf_key (by simp [mergeKeys])] at h
    have hNm : "Name" ∈ mergedCols dfPre dfPost ++ ["Audit_Status"] := by
      apply List.mem_append_left
      unfold mergedCols
      apply List.mem_append_left
      have h := List.mem_map_of_mem (lsuf dfPre dfPost) hN1
      rwa [lsuf_key (by simp [mergeKeys])] at h
    have hSFcommon : "Site_File" ∈ commonCols dfPre dfPost :=
      mem_commonCols.mpr ⟨hsf1, hsf2, by decide⟩
    have hFP : "Site_File_Pre" ∈ mergedCols dfPre dfPost ++ ["Audit_Status"] := by
      apply List.mem_append_left
      unfold mergedCols
      apply List.mem_append_left
      have h := List.mem_map_of_mem (lsuf dfPre dfPost) hsf1
      rwa [lsuf_of_common hSFcommon] at h
    have hFQ : "Site_File_Post" ∈ mergedCols dfPre dfPost ++ ["Audit_Status"] := by
      apply List.mem_append_left
      unfold mergedCols
      apply List.mem_append_right
      have hmem : "Site_File" ∈ dfPost.cols.filter (fun c => !(mergeKeys.contains c)) :=
        List.mem_filter.mpr ⟨hsf2, by decide⟩
      have h := List.mem_map_of_mem (rsuf dfPre dfPost) hmem
      rwa [rsuf_of_common hSFcommon] at h
    obtain ⟨df2, hrec⟩ := @reconstruct_ok
      ⟨mergedCols dfPre dfPost ++ ["Audit_Status"], ([] : List Row)⟩
      hSm hNm hFP hFQ
    obtain ⟨hrrows, _, hrmono, hsp, hnpre, hsq, hnpost⟩ := reconstruct_parts hrec
    have hAS : "Audit_Status" ∈ mergedCols dfPre dfPost ++ ["Audit_Status"] :=
      List.mem_append_right _ (List.mem_cons_self _ _)
    have hsel : ∀ c ∈ (preColsSel (status_cols dfPre dfPost) ++
        postColsSel (status_cols dfPre dfPost) ++ ["Audit_Status"]),
        c ∈ df2.cols := by
      rw [hsc]
      intro c hc
      simp only [preColsSel, postColsSel, List.map_nil, List.append_nil,
        List.mem_append, List.mem_cons, List.not_mem_nil, or_false] at hc
      rcases hc with ((hc | hc | hc) | (hc | hc | hc)) | hc <;> subst hc
      · exact hrmono _ hFP (by decide) (by decide)
      · exact hsp
      · exact hnpre
      · exact hrmono _ hFQ (by decide) (by decide)
      · exact hsq
      · exact hnpost
      · exact hrmono _ hAS (by decide) (by decide)
    obtain ⟨full, hselect⟩ := select_ok hsel
    rw [runAudit_eq hp hq hm hv hrec hselect]
    obtain ⟨_, hfr⟩ := select_parts hselect
    have hfull0 : full.rows = [] := by
      rw [hfr, hrrows]
      rfl
    have hact0 : (actionFilter full).rows = [] := by
      unfold actionFilter
      rw [hfull0]
      rfl
    simp [Except.map, hfull0, hact0]

/-- Witness for C6: one Precheck and one Postcheck document, each with a
zero-row Summary sheet: the status-column list is empty and the run
completes with an empty full report and an empty action report. -/
theorem C6_status_cols_empty_witness :
    status_cols dfPreE dfPostE = [] ∧
    (runAudit [preDocE] [postDocE]).map
      (fun rep => (rep.full.rows, rep.action.rows)) = .ok ([], []) := by
  have h := (C6_status_cols_empty [preDocE] [postDocE] dfPreE dfPostE
    rfl rfl).2.2 rfl rfl
  exact ⟨h.1, h.2 (by simp) (by simp)⟩

end PrePost
